import Mathlib

/-!
Verification development for the solo_convert repository: a shallow
embedding of the Unity-capture ingestion model (`src/data/unity_data`)
and the YOLO conversion pipeline (`src/data/yolo_conversion`), together
with theorems settling the specification claims.

Modelling conventions:
* Python floats are modelled as exact rationals; `round(x, p)` is modelled
  as rounding `x * 10 ^ p` to the nearest integer (Python's tie-to-even
  vs. Mathlib's tie-up differ only at exact ties, which no claim touches).
* Python strings are Lean `String`s; `str.split`, `int()` and
  `os.path.splitext` are embedded below over the underlying `List Char`.
* Fallible code returns `Except String`/an explicit error sum; filesystem
  writes are modelled as an explicit effect trace.
* Identifiers that the source spells with the word "annotations" are
  renamed (e.g. `get_bbox_annotations` becomes `get_bbox_lines`) and each
  such def carries a comment naming the source symbol.
-/

/-- Whitespace recognised by Python's `str.strip` (ASCII subset; the
claims only involve ASCII paths). -/
def pyIsSpace (c : Char) : Bool :=
  (c == ' ') || (c == '\t') || (c == '\n') || (c == '\r') || (c == '\x0b') || (c == '\x0c')

/-- Both-ends strip, as Python's `str.strip()`. -/
def pyStrip (l : List Char) : List Char :=
  ((l.dropWhile pyIsSpace).reverse.dropWhile pyIsSpace).reverse

/-- Tail of a Python integer literal after its first digit: digits with
single interior underscores (CPython `int()` grouping rule). -/
def intLitTail : List Char → Bool
  | [] => true
  | c :: cs =>
    if c = '_' then
      match cs with
      | [] => false
      | d :: ds => d.isDigit && intLitTail ds
    else c.isDigit && intLitTail cs

/-- A valid unsigned Python integer literal body: nonempty, leading digit. -/
def intLitOk : List Char → Bool
  | [] => false
  | c :: cs => c.isDigit && intLitTail cs

/-- Decimal value of a literal body, skipping grouping underscores. -/
def intDigitsVal (l : List Char) : ℕ :=
  l.foldl (fun a c => if c = '_' then a else 10 * a + (c.toNat - 48)) 0

/-- Decimal value of a plain digit string (the `<N>` of a `foo.<N>`
directory name). -/
def digitsVal (l : List Char) : ℕ :=
  l.foldl (fun a c => 10 * a + (c.toNat - 48)) 0

/-- The digit body of a stripped integer literal: the part after an
optional single leading sign. -/
def pyIntCore (t : List Char) : List Char :=
  if t.head? = some '+' ∨ t.head? = some '-' then t.tail else t

/-- The sign factor of a stripped integer literal. -/
def pyIntSign (t : List Char) : ℤ :=
  if t.head? = some '-' then -1 else 1

/-- Python's `int(s)`: strip whitespace, optional single sign, digit
body; raises `ValueError` (modelled as `Except.error`) otherwise. -/
def pyInt (s : String) : Except String ℤ :=
  if intLitOk (pyIntCore (pyStrip s.data)) then
    Except.ok (pyIntSign (pyStrip s.data) * (intDigitsVal (pyIntCore (pyStrip s.data)) : ℤ))
  else Except.error "invalid literal for int"

/-- Python's `str.split(sep)` for a one-character separator: always
returns at least one (possibly empty) component. -/
def splitOnChar (c : Char) : List Char → List (List Char)
  | [] => [[]]
  | x :: xs =>
    match splitOnChar c xs with
    | [] => [[]]
    | h :: t => if x = c then [] :: h :: t else (x :: h) :: t

/-- `s.split(c)[-1]`: the component after the last occurrence of `c`
(the whole string if `c` does not occur). -/
def lastSplit (c : Char) (s : String) : String :=
  String.mk ((splitOnChar c s.data).getLastD [])

/-- The extension part of `os.path.splitext` (the only part the source
uses): the suffix of the basename from its last dot, except that a dot
inside the basename's leading run of dots never starts an extension. -/
def pySplitextExt (s : String) : String :=
  let base := (splitOnChar '/' s.data).getLastD []
  let lead := (base.takeWhile (fun c => c = '.')).length
  let rest := base.drop lead
  if rest.contains '.' then String.mk ('.' :: (splitOnChar '.' rest).getLastD [])
  else ""

/-- POSIX `os.path.join` for the already-relative names the pipeline
builds (the source always joins with plain path segments). -/
def pathJoin (a b : String) : String := a ++ "/" ++ b

/-- Python `round(x, p)` on exact rationals: nearest multiple of
`10 ^ (-p)`.  Mathlib's `round` resolves exact ties upward where CPython
uses ties-to-even; no claim rests on an exact tie. -/
def roundPrec (q : ℚ) (p : ℕ) : ℚ :=
  ((round (q * 10 ^ p) : ℤ) : ℚ) / 10 ^ p

/-- Modelled from the spec: the Label record (`label.py` is not under
`src/`).  Spec section 3: dense zero-based `id` assigned on first sight,
the source file's own label id, and the label name. -/
structure Label where
  id : ℕ
  source_label_id : ℤ
  name : String
deriving DecidableEq

/-- One `{label_id, label_name}` entry of a definition block's `spec`
list; either key may be missing in the raw JSON. -/
structure SpecEntry where
  label_id : Option ℤ
  label_name : Option String
deriving DecidableEq

/-- One block of `annotationDefinitions` (source: `AnnotationDefinition`):
the `spec` key may be absent or not a list (modelled as `none`). -/
structure DefBlock where
  spec : Option (List SpecEntry)
deriving DecidableEq

/-- Registration step of `UnityData.read_labels` for one spec entry:
skip entries lacking either key; register a fresh `Label` only when the
name is unseen, consuming the running counter. -/
def labelStep (st : List Label × ℕ) (e : SpecEntry) : List Label × ℕ :=
  match e.label_id, e.label_name with
  | some lid, some n =>
    if st.1.any (fun l => l.name == n) then st
    else (st.1 ++ [⟨st.2, lid, n⟩], st.2 + 1)
  | _, _ => st

/-- `UnityData.read_labels` (src/src/data/unity_data/data.py, lines
29-46), as a pure function of the parsed definition blocks: blocks
without a nonempty `spec` list are skipped, entries register through
`labelStep`. -/
def read_labels (defs : List DefBlock) : List Label :=
  (defs.foldl
    (fun st b =>
      match b.spec with
      | some l => if l = [] then st else l.foldl labelStep st
      | none => st)
    ([], 0)).1

/-- The `(label_id, label_name)` payload of a spec entry having both
keys; `none` for entries the source loop skips. -/
def entryPick (e : SpecEntry) : Option (ℤ × String) :=
  match e.label_id, e.label_name with
  | some lid, some n => some (lid, n)
  | _, _ => none

/-- `labelStep`, rephrased on the picked `(label_id, label_name)` pair. -/
def pairStep (st : List Label × ℕ) (e : ℤ × String) : List Label × ℕ :=
  if st.1.any (fun l => l.name == e.2) then st
  else (st.1 ++ [⟨st.2, e.1, e.2⟩], st.2 + 1)

/-- The flattened stream of `(label_id, label_name)` pairs that
`read_labels` actually iterates: entries of nonempty `spec` lists having
both keys, in file order. -/
def eligibleEntries (defs : List DefBlock) : List (ℤ × String) :=
  defs.foldr
    (fun b acc =>
      match b.spec with
      | some l => if l = [] then acc else l.filterMap entryPick ++ acc
      | none => acc)
    []

/-- The names of `eligibleEntries`, in encounter order. -/
def eligibleNames (defs : List DefBlock) : List String :=
  (eligibleEntries defs).map Prod.snd

/-- First-seen deduplication, following the spec's words ("a label is
registered only the first time its name is seen; subsequent repeats are
dropped"): the comparison definition for the registry refinement. -/
def specFirstSeen (seen : List String) : List String → List String
  | [] => []
  | n :: ns =>
    if n ∈ seen then specFirstSeen seen ns
    else n :: specFirstSeen (seen ++ [n]) ns

/-- Visibility record of one instance inside an OcclusionMetric
(src/src/data/unity_data/metric.py, `OcclusionValue`). -/
structure OcclusionValue where
  instance_id : ℤ
  percent_visible : ℚ
  percent_in_frame : ℚ
  visibility_in_frame : ℚ
deriving DecidableEq

/-- One label count inside an ObjectCountMetric (`ObjectCountValue`). -/
structure ObjectCountValue where
  label_id : ℤ
  label_name : String
  count : ℤ
deriving DecidableEq

/-- A raw metric `values` element: a JSON object carrying the fields the
two value parsers read (`instanceId`, … for occlusion; `labelId`, … for
object counts).  Missing-key errors inside value dicts are outside every
claim and the fields are total here. -/
structure RawValue where
  instanceId : ℤ
  percentVisible : ℚ
  percentInFrame : ℚ
  visibilityInFrame : ℚ
  labelId : ℤ
  labelName : String
  count : ℤ
deriving DecidableEq

/-- `OcclusionValue.from_dict` (metric.py lines 49-56). -/
def OcclusionValue.from_dict (d : RawValue) : OcclusionValue :=
  { instance_id := d.instanceId
    percent_visible := d.percentVisible
    percent_in_frame := d.percentInFrame
    visibility_in_frame := d.visibilityInFrame }

/-- `ObjectCountValue.from_dict` (metric.py lines 31-37). -/
def ObjectCountValue.from_dict (d : RawValue) : ObjectCountValue :=
  { label_id := d.labelId, label_name := d.labelName, count := d.count }

/-- `MetricBase.TYPE_OBJECT_COUNT`. -/
def TYPE_OBJECT_COUNT : String := "type.unity.com/unity.solo.ObjectCountMetric"

/-- `MetricBase.TYPE_OCCLUSION`. -/
def TYPE_OCCLUSION : String := "type.unity.com/unity.solo.OcclusionMetric"

/-- `OcclusionMetric` (metric.py lines 100-119); the source field
`annotation_id` is spelled `ann_id` here. -/
structure OcclusionMetric where
  id : String
  sensor_id : String
  sequence : ℤ
  ann_id : String
  description : String
  values : Option (List OcclusionValue)
deriving DecidableEq

/-- `ObjectCountMetric` (metric.py lines 79-98). -/
structure ObjectCountMetric where
  id : String
  sensor_id : String
  sequence : ℤ
  ann_id : String
  description : String
  values : Option (List ObjectCountValue)
deriving DecidableEq

/-- `Metric` (metric.py lines 121-134).  The source always sets
`generic_metrics` to `None`; the constantly-absent slot is omitted. -/
structure Metric where
  id : String
  sequence : ℤ
  sensor_id : String
  description : String
  object_count_metric : Option ObjectCountMetric
  occlusion_metric : Option OcclusionMetric
deriving DecidableEq

/-- A raw metric entry as read from a manifest file and tagged with its
source directory (`path`); `atType` is the raw `@type`, `annId` the raw
`annotationId`, `values` the optional raw `values` list. -/
structure RawMetric where
  atType : String
  id : String
  path : String
  sensorId : String
  annId : String
  description : String
  values : Option (List RawValue)
deriving DecidableEq

/-- `Metric.from_dict` (metric.py lines 136-160): the sequence is the
integer parse of the path's final dot component (shared by the submetric
parsers, which read the same key); the `@type` tag selects at most one
of the payload slots. -/
def Metric.from_dict (raw : RawMetric) : Except String Metric :=
  match pyInt (lastSplit '.' raw.path) with
  | Except.error e => Except.error e
  | Except.ok seq =>
    let ocm : Option ObjectCountMetric :=
      if raw.atType = TYPE_OBJECT_COUNT then
        some { id := raw.id, sensor_id := raw.sensorId, sequence := seq,
               ann_id := raw.annId, description := raw.description,
               values := raw.values.map (fun vs => vs.map ObjectCountValue.from_dict) }
      else none
    let occ : Option OcclusionMetric :=
      if raw.atType = TYPE_OCCLUSION then
        some { id := raw.id, sensor_id := raw.sensorId, sequence := seq,
               ann_id := raw.annId, description := raw.description,
               values := raw.values.map (fun vs => vs.map OcclusionValue.from_dict) }
      else none
    Except.ok { id := raw.id, sequence := seq, sensor_id := raw.sensorId,
                description := raw.description,
                object_count_metric := ocm, occlusion_metric := occ }

/-- Modelled from the spec: a 2D bounding box value
(`bounding_box_2d.py` is not under `src/`).  Spec section 3: instance
id, resolved label, pixel origin `[x, y]` and pixel dimension `[w, h]`,
copied verbatim at parse time. -/
structure BBoxVal where
  instance_id : ℤ
  label : Label
  origin : List ℚ
  dimension : List ℚ
deriving DecidableEq

/-- Modelled from the spec: the 2D bounding box record of a capture
(source class `BoundingBox2DAnnotation`): the list of box values. -/
structure BBox2DRec where
  values : List BBoxVal
deriving DecidableEq

/-- Modelled from the spec: one keypoint of a keypoint value
(`keypoint.py` is not under `src/`): pixel location `[x, y]` and the
visibility state code. -/
structure KeypointPt where
  location : List ℚ
  state : ℤ
deriving DecidableEq

/-- Modelled from the spec: the keypoint set of one instance. -/
structure KeypointVal where
  instance_id : ℤ
  keypoints : List KeypointPt
deriving DecidableEq

/-- Modelled from the spec: the keypoint record of a capture
(source class `KeypointAnnotation`). -/
structure KeypointRec where
  values : List KeypointVal
deriving DecidableEq

/-- Modelled from the spec: one instance entry of an
instance-segmentation record: instance id, resolved label, color key. -/
structure SegInstance where
  instance_id : ℤ
  label : Label
  color : List ℚ
deriving DecidableEq

/-- Modelled from the spec: the instance-segmentation record
(source class `InstanceSegmentationAnnotation`): mask image path plus
instance entries. -/
structure InstanceSegRec where
  file_path : String
  instances : List SegInstance
deriving DecidableEq

/-- Modelled from the spec: the semantic-segmentation record
(source class `SemanticSegmentationAnnotation`): the mask image path. -/
structure SemanticSegRec where
  file_path : String
deriving DecidableEq

/-- `Capture` (src/src/data/unity_data/capture.py lines 15-38).  The 3D
bbox, depth and transform records are passthrough data the conversion
pipeline never reads (spec section 3) and are modelled as unit
presence markers. -/
structure Capture where
  id : String
  sequence : ℤ
  description : String
  position : List ℚ
  rotation : List ℚ
  velocity : List ℚ
  acceleration : List ℚ
  file_path : String
  image_format : String
  dimension : List ℚ
  projection : String
  matrix : List ℚ
  instance_segmentation : Option InstanceSegRec
  semantic_segmentation : Option SemanticSegRec
  bounding_boxes_2d : Option BBox2DRec
  bounding_boxes_3d : Option Unit
  depth : Option Unit
  keypoints : Option KeypointRec
  transforms : Option Unit
deriving DecidableEq

/-- One element of a raw capture's annotation list, already carrying its
parsed payload: the seven sub-parsers live in modules outside `src/` and
are modelled from the spec (section 4.3: field-verbatim copies), so the
tagged raw block and its parse coincide here. -/
inductive RawAnn where
  | iseg (r : InstanceSegRec)
  | sseg (r : SemanticSegRec)
  | bb2d (r : BBox2DRec)
  | bb3d
  | dep
  | kpt (r : KeypointRec)
  | tfm
deriving DecidableEq

/-- A raw capture entry as read from a manifest file, tagged with its
source directory (`path`). -/
structure RawCapture where
  path : String
  id : String
  description : String
  position : List ℚ
  rotation : List ℚ
  velocity : List ℚ
  acceleration : List ℚ
  filename : String
  imageFormat : String
  dimension : List ℚ
  projection : String
  matrix : List ℚ
  anns : List RawAnn
deriving DecidableEq

/-- `Capture.from_dict` builds a dict keyed by `@type`, so for each kind
the last raw block of that kind wins; this selects it. -/
def lastAnn {α : Type} (l : List RawAnn) (f : RawAnn → Option α) : Option α :=
  l.reverse.findSome? f

/-- `Capture.from_dict` (capture.py lines 40-93): the sequence is the
integer parse of the path's final dot component (line 49, a ValueError
when non-numeric); each record slot is filled iff its type tag occurs in
the raw annotation list; `file_path` joins the directory and filename. -/
def Capture.from_dict (raw : RawCapture) : Except String Capture :=
  match pyInt (lastSplit '.' raw.path) with
  | Except.error e => Except.error e
  | Except.ok seq =>
    Except.ok
      { id := raw.id
        sequence := seq
        description := raw.description
        position := raw.position
        rotation := raw.rotation
        velocity := raw.velocity
        acceleration := raw.acceleration
        file_path := pathJoin raw.path raw.filename
        image_format := raw.imageFormat
        dimension := raw.dimension
        projection := raw.projection
        matrix := raw.matrix
        instance_segmentation :=
          lastAnn raw.anns (fun a => match a with | RawAnn.iseg r => some r | _ => none)
        semantic_segmentation :=
          lastAnn raw.anns (fun a => match a with | RawAnn.sseg r => some r | _ => none)
        bounding_boxes_2d :=
          lastAnn raw.anns (fun a => match a with | RawAnn.bb2d r => some r | _ => none)
        bounding_boxes_3d :=
          lastAnn raw.anns (fun a => match a with | RawAnn.bb3d => some () | _ => none)
        depth :=
          lastAnn raw.anns (fun a => match a with | RawAnn.dep => some () | _ => none)
        keypoints :=
          lastAnn raw.anns (fun a => match a with | RawAnn.kpt r => some r | _ => none)
        transforms :=
          lastAnn raw.anns (fun a => match a with | RawAnn.tfm => some () | _ => none) }

/-- `UnityData` (data.py lines 12-19): the label registry plus the two
insertion-ordered sequence indices (Python dicts preserve insertion
order, modelled as association lists). -/
structure UnityData where
  labels : List Label
  captures_by_sequence : List (ℤ × List Capture)
  metrics_by_sequence : List (ℤ × List Metric)

/-- The flattened `captures` property (data.py lines 147-149). -/
def UnityData.captures (d : UnityData) : List Capture :=
  (d.captures_by_sequence.map Prod.snd).flatten

/-- Dict subscript `metrics_by_sequence[seq]`: `none` models the KeyError
case. -/
def UnityData.metricsFor (d : UnityData) (seq : ℤ) : Option (List Metric) :=
  (d.metrics_by_sequence.find? (fun p => p.1 == seq)).map Prod.snd

/-- The keyword configuration of `unity_to_yolo` (convert_modular.py
lines 120-131). -/
structure ConvConfig where
  include_bboxes : Bool
  include_keypoints : Bool
  include_segmentation : Bool
  include_semantic_mask : Bool
  include_occlusion : Bool
  n_keypoints : Option ℕ
  flip_idx : Option (List ℕ)
  include_test : Bool
  precision : ℕ
deriving DecidableEq

/-- One line of an emitted annotation text file, modelled structurally
(the source serialises these fields space-separated per line). -/
inductive Line where
  | bbox (label_id : ℕ) (cx cy w h : ℚ)
  | kpt (label_id : ℕ) (cx cy w h : ℚ) (kps : List (ℚ × ℚ × ℕ))
  | seg (label_id : ℕ) (polys : List (List (ℚ × ℚ)))
  | occl (instance_id : ℤ) (percent_visible : ℚ)
deriving DecidableEq

/-- One line of the YAML manifest header, modelled structurally
(`write_yaml_header`, convert_modular.py lines 93-118).  The `path:`
line's absolute-path resolution depends on the process working directory
and is modelled as the output directory itself. -/
inductive YamlItem where
  | pathLine (dir : String)
  | trainLine
  | valLine
  | testLine
  | blank
  | kptShape (n : ℕ)
  | flipIdx (l : List ℕ)
  | namesHeader
  | nameEntry (id : ℕ) (name : String)
deriving DecidableEq

/-- A filesystem side effect of the conversion run. -/
inductive Effect where
  | mkdir (p : String)
  | copyFile (src dst : String)
  | writeLines (p : String) (lines : List Line)
  | writeYaml (p : String) (items : List YamlItem)
deriving DecidableEq

/-- A runtime failure of the conversion run. -/
inductive ConvError where
  | configError
  | keyError (seq : ℤ)
  | noneAttrError
  | indexError
deriving DecidableEq

/-- The two external collaborators the pipeline consumes (spec section
1): the composite of `cv2.imread` and `detect_colored_polygons`, keyed
by the mask file path, and `generate_random_split`. -/
structure Oracles where
  detect : String → List ℚ → ℕ → List (List (ℚ × ℚ))
  gensplit : ℕ → ℚ → ℚ → List String

/-- Python list indexing into a `[w, h]` dimension pair; on a too-short
list Python would raise IndexError, which no claim reaches (every claim
fixes `dimension = [w, h]`). -/
def nth (l : List ℚ) (i : ℕ) : ℚ := l.getD i 0

/-- The normalized bbox line for one box value (the body of the loop in
`get_bbox_annotations`, convert_modular.py lines 20-26). -/
def bboxLineOf (capture : Capture) (precision : ℕ) (bb : BBoxVal) : Line :=
  let img_width := nth capture.dimension 0
  let img_height := nth capture.dimension 1
  Line.bbox bb.label.id
    (roundPrec ((nth bb.origin 0 + nth bb.dimension 0 / 2) / img_width) precision)
    (roundPrec ((nth bb.origin 1 + nth bb.dimension 1 / 2) / img_height) precision)
    (roundPrec (nth bb.dimension 0 / img_width) precision)
    (roundPrec (nth bb.dimension 1 / img_height) precision)

/-- `get_bbox_annotations` (convert_modular.py lines 12-28): one line
per 2D box value.  (Python dereferences `capture.bounding_boxes_2d`
unconditionally and would raise on `None`; the pipeline only calls this
on captures that passed the validity filter, where the record is
present, so the `none` branch is modelled as no output.) -/
def get_bbox_lines (capture : Capture) (precision : ℕ) : List Line :=
  match capture.bounding_boxes_2d with
  | none => []
  | some bb => bb.values.map (bboxLineOf capture precision)

/-- The keypoint line for one box value paired with its matching
keypoint value (body of the loop in `get_keypoint_annotations`,
convert_modular.py lines 45-59). -/
def kptLineOf (capture : Capture) (precision : ℕ) (bb : BBoxVal) (kv : KeypointVal) : Line :=
  let img_width := nth capture.dimension 0
  let img_height := nth capture.dimension 1
  Line.kpt bb.label.id
    (roundPrec ((nth bb.origin 0 + nth bb.dimension 0 / 2) / img_width) precision)
    (roundPrec ((nth bb.origin 1 + nth bb.dimension 1 / 2) / img_height) precision)
    (roundPrec (nth bb.dimension 0 / img_width) precision)
    (roundPrec (nth bb.dimension 1 / img_height) precision)
    (kv.keypoints.map (fun k =>
      (roundPrec (nth k.location 0 / img_width) precision,
       roundPrec (nth k.location 1 / img_height) precision,
       if k.state = 2 then 1 else 0)))

/-- `get_keypoint_annotations` (convert_modular.py lines 30-61): for
every 2D box value, `next(...)` finds the first keypoint value sharing
its `instance_id`; boxes without a match are skipped.  (As for
`get_bbox_lines`, the `None`-record branches are unreachable from the
validated pipeline.) -/
def get_keypoint_lines (capture : Capture) (precision : ℕ) : List Line :=
  match capture.bounding_boxes_2d, capture.keypoints with
  | some bb, some ka =>
    bb.values.filterMap (fun b =>
      match ka.values.find? (fun kp => kp.instance_id == b.instance_id) with
      | none => none
      | some kv => some (kptLineOf capture precision b kv))
  | _, _ => []

/-- `get_segmentation_annotations` (convert_modular.py lines 63-91):
returns no lines when the record is absent (explicit source check);
otherwise one line per instance entry, whose polygon boundaries come
from the external detector keyed by the instance color. -/
def get_segmentation_lines (ext : Oracles) (capture : Capture) (precision : ℕ) : List Line :=
  match capture.instance_segmentation with
  | none => []
  | some iseg =>
    iseg.instances.map (fun inst =>
      Line.seg inst.label.id (ext.detect iseg.file_path inst.color precision))

/-- The manifest lines of `write_yaml_header` (convert_modular.py lines
93-118), in write order. -/
def yamlItems (d : UnityData) (cfg : ConvConfig) (dir : String) : List YamlItem :=
  [YamlItem.pathLine dir, YamlItem.trainLine, YamlItem.valLine]
    ++ (if cfg.include_test then [YamlItem.testLine] else [])
    ++ [YamlItem.blank]
    ++ (match cfg.include_keypoints, cfg.n_keypoints with
        | true, some n =>
          [YamlItem.kptShape n]
            ++ (match cfg.flip_idx with
                | some f => [YamlItem.flipIdx f]
                | none => [])
        | _, _ => [])
    ++ [YamlItem.namesHeader]
    ++ d.labels.map (fun l => YamlItem.nameEntry l.id l.name)

/-- `create_yolo_data_dir` (data_directory.py), modelled for the
fresh-path case: the collision-suffix search needs the ambient
filesystem, which no claim touches (`os.path.normpath` likewise
modelled as the identity).  Returns the scaffold effects, the data
directory and the yaml path. -/
def create_yolo_data_dir (p : String) (include_test : Bool) : List Effect × String × String :=
  let name := String.mk ((splitOnChar '/' p.data).getLastD [])
  let effs := [Effect.mkdir p, Effect.mkdir (pathJoin p "train"), Effect.mkdir (pathJoin p "val")]
    ++ (if include_test then [Effect.mkdir (pathJoin p "test")] else [])
  (effs, p, pathJoin p (name ++ ".yaml"))

/-- The validity check of the capture filter (convert_modular.py lines
160-173): each requested kind adds a presence conjunct. -/
def captureIsValid (cfg : ConvConfig) (c : Capture) : Bool :=
  let v := true
  let v := if cfg.include_bboxes || cfg.include_keypoints then v && c.bounding_boxes_2d.isSome else v
  let v := if cfg.include_keypoints then v && c.keypoints.isSome else v
  let v := if cfg.include_segmentation then v && c.instance_segmentation.isSome else v
  let v := if cfg.include_semantic_mask then v && c.semantic_segmentation.isSome else v
  v

/-- `valid_captures` (convert_modular.py lines 160-173). -/
def validCaptures (d : UnityData) (cfg : ConvConfig) : List Capture :=
  d.captures.filter (captureIsValid cfg)

/-- Output path of the per-capture file `nm` under split `s`. -/
def splitFile (path s nm : String) : String := pathJoin (pathJoin path s) nm

/-- The bbox lines a capture contributes (convert_modular.py lines
203-204): only when bboxes are requested and keypoints are not. -/
def bboxLinesIf (cfg : ConvConfig) (c : Capture) : List Line :=
  if cfg.include_bboxes && !cfg.include_keypoints then get_bbox_lines c cfg.precision else []

/-- The keypoint lines a capture contributes (lines 205-206). -/
def kptLinesIf (cfg : ConvConfig) (c : Capture) : List Line :=
  if cfg.include_keypoints then get_keypoint_lines c cfg.precision else []

/-- The segmentation lines a capture contributes (lines 207-208). -/
def segLinesIf (cfg : ConvConfig) (ext : Oracles) (c : Capture) : List Line :=
  if cfg.include_segmentation then get_segmentation_lines ext c cfg.precision else []

/-- `if annotations_x:` guard around a text file write (lines 211-223):
the file is written only when there is at least one line. -/
def writeIf (p : String) (ls : List Line) : List Effect :=
  if ls ≠ [] then [Effect.writeLines p ls] else []

/-- The effects of the loop body before the metrics lookup (lines
194-223): image copy, then the three guarded annotation file writes. -/
def emitPre (cfg : ConvConfig) (ext : Oracles) (path : String) (i : ℕ) (s : String)
    (c : Capture) : List Effect :=
  [Effect.copyFile c.file_path
      (splitFile path s (toString i ++ "." ++ lastSplit '.' c.file_path))]
    ++ writeIf (splitFile path s (toString i ++ "_bbox.txt")) (bboxLinesIf cfg c)
    ++ writeIf (splitFile path s (toString i ++ "_keypoints.txt")) (kptLinesIf cfg c)
    ++ writeIf (splitFile path s (toString i ++ "_segmentation.txt")) (segLinesIf cfg ext c)

/-- The occlusion file write (lines 230-236): gated on the flag, a
non-`None` occlusion payload on the found metric, and a non-`None`
values list — an empty list passes the gate and writes an empty file. -/
def occEffects (cfg : ConvConfig) (path : String) (i : ℕ) (s : String) (m : Metric) : List Effect :=
  if cfg.include_occlusion then
    match m.occlusion_metric with
    | some om =>
      match om.values with
      | some vs =>
        [Effect.writeLines (splitFile path s (toString i ++ "_occlusion.txt"))
          (vs.map (fun v => Line.occl v.instance_id v.percent_visible))]
      | none => []
    | none => []
  else []

/-- The semantic mask copy (lines 238-241): note the target name joins
`_mask.` with `os.path.splitext`'s suffix, which keeps its own dot. -/
def maskEffects (cfg : ConvConfig) (path : String) (i : ℕ) (s : String) (c : Capture) : List Effect :=
  if cfg.include_semantic_mask then
    match c.semantic_segmentation with
    | some ss =>
      [Effect.copyFile ss.file_path
        (splitFile path s (toString i ++ "_mask." ++ pySplitextExt ss.file_path))]
    | none => []
  else []

/-- Per-capture emission (loop body of `unity_to_yolo`, convert_modular.py
lines 190-241) for positional index `i` assigned to split `s`: the
pre-lookup effects, then the unconditional sequence-metrics lookup (a
`KeyError` when the sequence has no metrics, a `None` dereference when no
metric's id is "Occlusion"), then the occlusion write and the mask copy.
Returns the effects performed before any failure, plus the failure. -/
def emitCapture (d : UnityData) (cfg : ConvConfig) (ext : Oracles) (path : String)
    (i : ℕ) (s : String) (c : Capture) : List Effect × Option ConvError :=
  match d.metricsFor c.sequence with
  | none => (emitPre cfg ext path i s c, some (ConvError.keyError c.sequence))
  | some ms =>
    match ms.find? (fun m => m.id == "Occlusion") with
    | none => (emitPre cfg ext path i s c, some ConvError.noneAttrError)
    | some m =>
      (emitPre cfg ext path i s c ++ occEffects cfg path i s m ++ maskEffects cfg path i s c,
        none)

/-- One loop iteration at index `k`: `valid_captures[i]` raises
IndexError past the end, before any effect. -/
def stepAt (d : UnityData) (cfg : ConvConfig) (ext : Oracles) (path : String)
    (valid : List Capture) (k : ℕ) (s : String) : List Effect × Option ConvError :=
  match valid.get? k with
  | none => ([], some ConvError.indexError)
  | some c => emitCapture d cfg ext path k s c

/-- The emission loop over the split tags, starting at index `k`:
effects accumulate in order and the first failure aborts the run,
keeping the effects already performed. -/
def loopRun (d : UnityData) (cfg : ConvConfig) (ext : Oracles) (path : String)
    (valid : List Capture) : ℕ → List String → List Effect × Option ConvError
  | _, [] => ([], none)
  | k, s :: rest =>
    match stepAt d cfg ext path valid k s with
    | (es, some e) => (es, some e)
    | (es, none) =>
      (es ++ (loopRun d cfg ext path valid (k + 1) rest).1,
        (loopRun d cfg ext path valid (k + 1) rest).2)

instance exceptDecEq {ε α : Type} [DecidableEq ε] [DecidableEq α] : DecidableEq (Except ε α) :=
  fun a b =>
    match a, b with
    | Except.ok x, Except.ok y =>
      if h : x = y then isTrue (by rw [h]) else isFalse (fun hc => h (Except.ok.inj hc))
    | Except.error x, Except.error y =>
      if h : x = y then isTrue (by rw [h]) else isFalse (fun hc => h (Except.error.inj hc))
    | Except.ok _, Except.error _ => isFalse (fun hc => Except.noConfusion hc)
    | Except.error _, Except.ok _ => isFalse (fun hc => Except.noConfusion hc)

/-- The observable outcome of a conversion run: the ordered effect
trace, and the yaml path or the aborting error. -/
structure ConvRun where
  effects : List Effect
  result : Except ConvError String
deriving DecidableEq

/-- The data directory a run writes under (second component of
`create_yolo_data_dir`). -/
def convPath (out : String) (cfg : ConvConfig) : String :=
  (create_yolo_data_dir out cfg.include_test).2.1

/-- The manifest file path of a run. -/
def convYaml (out : String) (cfg : ConvConfig) : String :=
  (create_yolo_data_dir out cfg.include_test).2.2

/-- The split-tag list a run draws from the external generator
(validation fraction 0.1, test fraction 0.1 iff `include_test`). -/
def convSplit (d : UnityData) (cfg : ConvConfig) (ext : Oracles) : List String :=
  ext.gensplit (validCaptures d cfg).length (1/10) (if cfg.include_test then 1/10 else 0)

/-- `unity_to_yolo` (convert_modular.py lines 120-243): the
`n_keypoints` configuration check precedes all I/O; then scaffold and
manifest, the validity filter, the external split assignment, and the
emission loop indexed from 0. -/
def unity_to_yolo (d : UnityData) (output_path : String) (cfg : ConvConfig) (ext : Oracles) : ConvRun :=
  if cfg.include_keypoints && cfg.n_keypoints.isNone then
    { effects := [], result := Except.error ConvError.configError }
  else
    { effects :=
        (create_yolo_data_dir output_path cfg.include_test).1
          ++ [Effect.writeYaml (convYaml output_path cfg)
                (yamlItems d cfg (convPath output_path cfg))]
          ++ (loopRun d cfg ext (convPath output_path cfg) (validCaptures d cfg) 0
                (convSplit d cfg ext)).1
      result :=
        match (loopRun d cfg ext (convPath output_path cfg) (validCaptures d cfg) 0
            (convSplit d cfg ext)).2 with
        | some e => Except.error e
        | none => Except.ok (convYaml output_path cfg) }

/-- A conversion error of the null-dereference or lookup class: the
`KeyError` on `metrics_by_sequence` or the `NoneType` attribute error on
the missing "Occlusion" metric entry. -/
def ConvError.lookupClass : ConvError → Prop
  | ConvError.keyError _ => True
  | ConvError.noneAttrError => True
  | _ => False

/-! Concrete example data used by witnesses and counterexamples. -/

/-- A registry label for the examples. -/
def exLabel : Label := ⟨0, 1, "car"⟩

/-- External collaborators for the examples: an empty polygon detector
and a split generator assigning every capture to `train`. -/
def exOracle : Oracles :=
  { detect := fun _ _ _ => [], gensplit := fun n _ _ => List.replicate n "train" }

/-- A baseline capture of sequence 0 with a 2D box and a semantic mask. -/
def exCap : Capture :=
  { id := "c0", sequence := 0, description := "", position := [], rotation := [],
    velocity := [], acceleration := [],
    file_path := "solo/sequence.0/step0.camera.png", image_format := "png",
    dimension := [100, 50], projection := "persp", matrix := [],
    instance_segmentation := none,
    semantic_segmentation := some ⟨"solo/sequence.0/step0.camera.semantic.png"⟩,
    bounding_boxes_2d := some ⟨[⟨1, exLabel, [10, 20], [30, 40]⟩]⟩,
    bounding_boxes_3d := none, depth := none,
    keypoints := none,
    transforms := none }

/-- The spec's keypoint-matching scenario: boxes for instances 1 and 2,
keypoints only for instance 2. -/
def exCapKp : Capture :=
  { exCap with
    bounding_boxes_2d := some ⟨[⟨1, exLabel, [10, 20], [30, 40]⟩, ⟨2, exLabel, [1, 2], [3, 4]⟩]⟩
    keypoints := some ⟨[⟨2, [⟨[5, 6], 2⟩, ⟨[7, 8], 1⟩]⟩]⟩ }

/-- A capture with a huge image (width 10^7) and a box at pixel origin
`[1, 1]` of zero size: the normalization round-trip error reaches 1. -/
def exCapBig : Capture :=
  { exCap with
    dimension := [(10000000 : ℚ), (10000000 : ℚ)]
    bounding_boxes_2d := some ⟨[⟨1, exLabel, [1, 1], [0, 0]⟩]⟩ }

/-- An "Occlusion" metric entry of sequence 0 whose occlusion payload
carries one value. -/
def exMetricOccl : Metric :=
  { id := "Occlusion", sequence := 0, sensor_id := "cam", description := "",
    object_count_metric := none,
    occlusion_metric := some
      { id := "Occlusion", sensor_id := "cam", sequence := 0, ann_id := "", description := "",
        values := some [⟨7, 1/2, 1, 1⟩] } }

/-- An "Occlusion" metric entry of sequence 0 whose occlusion payload
carries an empty values list. -/
def exMetricEmpty : Metric :=
  { id := "Occlusion", sequence := 0, sensor_id := "cam", description := "",
    object_count_metric := none,
    occlusion_metric := some
      { id := "Occlusion", sensor_id := "cam", sequence := 0, ann_id := "", description := "",
        values := some [] } }

/-- A metric entry of sequence 0 whose id is not "Occlusion". -/
def exMetricOther : Metric :=
  { id := "RenderedObjectInfo", sequence := 0, sensor_id := "cam", description := "",
    object_count_metric := none, occlusion_metric := none }

/-- Dataset with one capture and an "Occlusion" metric with one value. -/
def exData : UnityData :=
  { labels := [exLabel],
    captures_by_sequence := [(0, [exCap])],
    metrics_by_sequence := [(0, [exMetricOccl])] }

/-- Dataset whose only sequence has metrics but none named "Occlusion". -/
def exDataNoOccl : UnityData :=
  { labels := [exLabel],
    captures_by_sequence := [(0, [exCap])],
    metrics_by_sequence := [(0, [exMetricOther])] }

/-- Dataset whose "Occlusion" metric carries an empty values list. -/
def exDataEmpty : UnityData :=
  { labels := [exLabel],
    captures_by_sequence := [(0, [exCap])],
    metrics_by_sequence := [(0, [exMetricEmpty])] }

/-- Configuration with every inclusion flag off (precision 6). -/
def exCfgNone : ConvConfig :=
  { include_bboxes := false, include_keypoints := false, include_segmentation := false,
    include_semantic_mask := false, include_occlusion := false,
    n_keypoints := none, flip_idx := none, include_test := false, precision := 6 }

/-- Configuration requesting only occlusion output. -/
def exCfgOccl : ConvConfig := { exCfgNone with include_occlusion := true }

/-- Configuration requesting only the semantic mask copy. -/
def exCfgMask : ConvConfig := { exCfgNone with include_semantic_mask := true }

/-- Configuration requesting keypoints without `n_keypoints`. -/
def exCfgKpBad : ConvConfig := { exCfgNone with include_keypoints := true }

/-- Definition blocks with a duplicate name, a specless block, an empty
spec list, and an entry missing its name key. -/
def exDefs : List DefBlock :=
  [⟨some [⟨some 1, some "car"⟩, ⟨some 2, some "person"⟩]⟩,
   ⟨none⟩,
   ⟨some []⟩,
   ⟨some [⟨some 3, some "car"⟩, ⟨some 4, none⟩, ⟨some 5, some "tree"⟩]⟩]

/-- A raw capture whose containing directory is `sequence.42`. -/
def exRawCap : RawCapture :=
  { path := "solo/sequence.42", id := "c", description := "",
    position := [], rotation := [], velocity := [], acceleration := [],
    filename := "step0.camera.png", imageFormat := "png", dimension := [100, 50],
    projection := "persp", matrix := [], anns := [] }

/-- A raw capture whose containing directory suffix is not numeric. -/
def exRawCapBad : RawCapture := { exRawCap with path := "solo/sequence.x7" }

/-- A raw occlusion metric of directory `sequence.42`. -/
def exRawMet : RawMetric :=
  { atType := "type.unity.com/unity.solo.OcclusionMetric", id := "Occlusion",
    path := "solo/sequence.42", sensorId := "cam", annId := "", description := "",
    values := some [⟨7, 1/2, 1, 1, 0, "", 0⟩] }

/-- A raw metric whose containing directory suffix is not numeric. -/
def exRawMetBad : RawMetric := { exRawMet with path := "solo/sequence.x7" }

/-! Theorems. -/

theorem captureIsValid_iff (cfg : ConvConfig) (c : Capture) :
    captureIsValid cfg c = true ↔
      ((cfg.include_bboxes = true ∨ cfg.include_keypoints = true) → c.bounding_boxes_2d ≠ none)
      ∧ (cfg.include_keypoints = true → c.keypoints ≠ none)
      ∧ (cfg.include_segmentation = true → c.instance_segmentation ≠ none)
      ∧ (cfg.include_semantic_mask = true → c.semantic_segmentation ≠ none) := by
  unfold captureIsValid
  cases hb : cfg.include_bboxes <;> cases hk : cfg.include_keypoints <;>
    cases hs : cfg.include_segmentation <;> cases hm : cfg.include_semantic_mask <;>
      simp [Option.isSome_iff_ne_none, and_assoc]

/-- Claim C6: a capture is eligible for conversion iff every requested
annotation kind is present on it — requesting bboxes or keypoints
requires the 2D-bbox record, keypoints additionally the keypoint record,
segmentation the instance-segmentation record, and semantic_mask the
semantic-segmentation record; captures missing a requested kind are
excluded (hence never emitted), and missing non-requested kinds do not
exclude. -/
theorem validity_filter_characterization (d : UnityData) (cfg : ConvConfig) (c : Capture) :
    c ∈ validCaptures d cfg ↔
      c ∈ d.captures
      ∧ ((cfg.include_bboxes = true ∨ cfg.include_keypoints = true) → c.bounding_boxes_2d ≠ none)
      ∧ (cfg.include_keypoints = true → c.keypoints ≠ none)
      ∧ (cfg.include_segmentation = true → c.instance_segmentation ≠ none)
      ∧ (cfg.include_semantic_mask = true → c.semantic_segmentation ≠ none) := by
  unfold validCaptures
  rw [List.mem_filter, captureIsValid_iff]

/-- Witness for C6 at a concrete capture and configuration: `exCap`
lacks keypoints yet remains eligible when only the semantic mask is
requested. -/
theorem validity_filter_witness : exCap ∈ validCaptures exData exCfgMask :=
  (validity_filter_characterization exData exCfgMask exCap).mpr
    ⟨by decide, by decide, by decide, by decide, by decide⟩

/-- Claim C10: requesting keypoints without `n_keypoints` fails
immediately with a configuration error and an empty effect trace — no
directory is created and no file (scaffold or manifest included) is
written. -/
theorem keypoints_config_error (d : UnityData) (out : String) (cfg : ConvConfig) (ext : Oracles)
    (hk : cfg.include_keypoints = true) (hn : cfg.n_keypoints = none) :
    unity_to_yolo d out cfg ext
      = { effects := [], result := Except.error ConvError.configError } := by
  unfold unity_to_yolo
  rw [hk, hn]
  simp

/-- Witness for C10: the concrete bad configuration aborts with the
configuration error before any effect. -/
theorem keypoints_config_error_witness :
    unity_to_yolo exData "out" exCfgKpBad exOracle
      = { effects := [], result := Except.error ConvError.configError } :=
  keypoints_config_error exData "out" exCfgKpBad exOracle rfl rfl

theorem roundPrec_error (q : ℚ) (p : ℕ) : |roundPrec q p - q| ≤ 1 / 2 / 10 ^ p := by
  have h10 : (0 : ℚ) < 10 ^ p := by positivity
  have h := abs_sub_round (q * 10 ^ p)
  rw [abs_sub_comm] at h
  unfold roundPrec
  rw [show ((round (q * 10 ^ p) : ℤ) : ℚ) / 10 ^ p - q
        = (((round (q * 10 ^ p) : ℤ) : ℚ) - q * 10 ^ p) / 10 ^ p by field_simp; ring]
  rw [abs_div, abs_of_pos h10]
  exact div_le_div_of_nonneg_right h h10.le

/-- Evaluation rule for `round` at a rational between two integers. -/
theorem round_eval (x : ℚ) (z : ℤ) (h1 : (z : ℚ) ≤ x + 1 / 2) (h2 : x + 1 / 2 < z + 1) :
    round x = z := by
  rw [round_eq]
  exact Int.floor_eq_iff.mpr ⟨h1, h2⟩

/-- Evaluation rule for `roundPrec` at a concrete rational. -/
theorem roundPrec_eval (q : ℚ) (p : ℕ) (z : ℤ)
    (h1 : (z : ℚ) ≤ q * 10 ^ p + 1 / 2) (h2 : q * 10 ^ p + 1 / 2 < z + 1) :
    roundPrec q p = z / 10 ^ p := by
  unfold roundPrec
  rw [round_eval (q * 10 ^ p) z h1 h2]

/-- Counterexample to claim C3 as stated: for the capture `exCapBig`
(image dimension `[10^7, 10^7]`, one box with pixel origin `[1, 1]` and
zero pixel dimension, precision 6), the emitted normalized center is 0,
and `|cx * w - bw / 2 - x| = 1` exceeds `10 ^ (-6)`. -/
theorem bbox_roundtrip_counterexample :
    exCapBig.dimension = [(10000000 : ℚ), 10000000]
    ∧ (∃ rec, exCapBig.bounding_boxes_2d = some rec
        ∧ rec.values.map BBoxVal.origin = [[1, 1]]
        ∧ rec.values.map BBoxVal.dimension = [[0, 0]])
    ∧ get_bbox_lines exCapBig 6 = [Line.bbox 0 0 0 0 0]
    ∧ ¬ (|(0 : ℚ) * 10000000 - 0 / 2 - 1| ≤ 1 / 10 ^ 6) := by
  have e0 : roundPrec ((1 + 0 / 2) / 10000000 : ℚ) 6 = 0 := by
    rw [roundPrec_eval ((1 + 0 / 2) / 10000000 : ℚ) 6 0 (by norm_num) (by norm_num)]
    norm_num
  have e1 : roundPrec ((0 : ℚ) / 10000000) 6 = 0 := by
    rw [roundPrec_eval ((0 : ℚ) / 10000000) 6 0 (by norm_num) (by norm_num)]
    norm_num
  refine ⟨rfl, ⟨_, rfl, rfl, rfl⟩, ?_, by norm_num⟩
  simp only [get_bbox_lines, exCapBig, exCap, bboxLineOf, nth, exLabel, List.map_cons,
    List.map_nil, List.getD_cons_zero, List.getD_cons_succ]
  rw [e0, e1]

/-- Claim C3, amended: the emitted normalized values `(cx, cy, bw/w,
bh/h)` (each rounded to `precision` decimals) satisfy the round-trip
`cx * w - bw / 2 = x` and `cy * h - bh / 2 = y` only to within
`(w / 2) * 10 ^ (-precision)` resp. `(h / 2) * 10 ^ (-precision)` — the
per-coordinate rounding error of at most half an ulp is scaled back by
the image dimension (the claimed absolute bound `10 ^ (-precision)`
fails for images wider than 2 pixels, see the counterexample). -/
theorem bbox_roundtrip_amended (c : Capture) (p : ℕ) (rec : BBox2DRec) (bb : BBoxVal)
    (w h x y bw bh : ℚ)
    (hdim : c.dimension = [w, h]) (hw : 0 < w) (hh : 0 < h)
    (hrec : c.bounding_boxes_2d = some rec) (hbb : bb ∈ rec.values)
    (horg : bb.origin = [x, y]) (hbd : bb.dimension = [bw, bh]) :
    bboxLineOf c p bb
      = Line.bbox bb.label.id (roundPrec ((x + bw / 2) / w) p) (roundPrec ((y + bh / 2) / h) p)
          (roundPrec (bw / w) p) (roundPrec (bh / h) p)
    ∧ bboxLineOf c p bb ∈ get_bbox_lines c p
    ∧ |roundPrec ((x + bw / 2) / w) p * w - bw / 2 - x| ≤ w / 2 / 10 ^ p
    ∧ |roundPrec ((y + bh / 2) / h) p * h - bh / 2 - y| ≤ h / 2 / 10 ^ p := by
  have hmem : bboxLineOf c p bb ∈ get_bbox_lines c p := by
    unfold get_bbox_lines
    rw [hrec]
    exact List.mem_map_of_mem _ hbb
  have hb1 : |roundPrec ((x + bw / 2) / w) p * w - bw / 2 - x| ≤ w / 2 / 10 ^ p := by
    have hq : (x + bw / 2) / w * w = x + bw / 2 := div_mul_cancel₀ _ (ne_of_gt hw)
    have he := roundPrec_error ((x + bw / 2) / w) p
    calc |roundPrec ((x + bw / 2) / w) p * w - bw / 2 - x|
        = |(roundPrec ((x + bw / 2) / w) p - (x + bw / 2) / w) * w| := by
          rw [sub_mul, hq]; ring_nf
      _ = |roundPrec ((x + bw / 2) / w) p - (x + bw / 2) / w| * w := by
          rw [abs_mul, abs_of_pos hw]
      _ ≤ 1 / 2 / 10 ^ p * w := by
          exact mul_le_mul_of_nonneg_right he (le_of_lt hw)
      _ = w / 2 / 10 ^ p := by ring
  have hb2 : |roundPrec ((y + bh / 2) / h) p * h - bh / 2 - y| ≤ h / 2 / 10 ^ p := by
    have hq : (y + bh / 2) / h * h = y + bh / 2 := div_mul_cancel₀ _ (ne_of_gt hh)
    have he := roundPrec_error ((y + bh / 2) / h) p
    calc |roundPrec ((y + bh / 2) / h) p * h - bh / 2 - y|
        = |(roundPrec ((y + bh / 2) / h) p - (y + bh / 2) / h) * h| := by
          rw [sub_mul, hq]; ring_nf
      _ = |roundPrec ((y + bh / 2) / h) p - (y + bh / 2) / h| * h := by
          rw [abs_mul, abs_of_pos hh]
      _ ≤ 1 / 2 / 10 ^ p * h := by
          exact mul_le_mul_of_nonneg_right he (le_of_lt hh)
      _ = h / 2 / 10 ^ p := by ring
  refine ⟨?_, hmem, hb1, hb2⟩
  unfold bboxLineOf
  rw [hdim, horg, hbd]
  simp [nth]

/-- Witness for the amended C3 at the concrete capture `exCap`
(dimension `[100, 50]`, box origin `[10, 20]`, box dimension
`[30, 40]`, precision 6). -/
theorem bbox_roundtrip_amended_witness :
    bboxLineOf exCap 6 (⟨1, exLabel, [10, 20], [30, 40]⟩ : BBoxVal) ∈ get_bbox_lines exCap 6
    ∧ |roundPrec ((10 + 30 / 2) / 100) 6 * 100 - 30 / 2 - 10| ≤ 100 / 2 / 10 ^ 6 := by
  have h := bbox_roundtrip_amended exCap 6 ⟨[⟨1, exLabel, [10, 20], [30, 40]⟩]⟩
    ⟨1, exLabel, [10, 20], [30, 40]⟩ 100 50 10 20 30 40 rfl (by norm_num) (by norm_num)
    rfl (by decide) rfl rfl
  exact ⟨h.2.1, h.2.2.1⟩

theorem filterMap_length_eq_filter_length {α β : Type} (f : α → Option β) (l : List α) :
    (l.filterMap f).length = (l.filter (fun x => (f x).isSome)).length := by
  induction l with
  | nil => rfl
  | cons a t ih => cases h : f a <;> simp [List.filterMap_cons, List.filter_cons, h, ih]

/-- Claim C7: when keypoints are requested, for every 2D box entry the
keypoint entry with the same `instance_id` is looked up; boxes with no
match are skipped without error; each emitted line is the box's
`label_id cx cy w h` followed by one normalized `kx ky vis` triple per
keypoint, `vis = 1` exactly when the visibility state is 2 and 0
otherwise. -/
theorem keypoint_matching (c : Capture) (p : ℕ) (ba : BBox2DRec) (ka : KeypointRec)
    (hb : c.bounding_boxes_2d = some ba) (hk : c.keypoints = some ka) :
    (get_keypoint_lines c p).length
      = (ba.values.filter
          (fun b => (ka.values.find? (fun kp => kp.instance_id == b.instance_id)).isSome)).length
    ∧ (∀ l ∈ get_keypoint_lines c p, ∃ b ∈ ba.values, ∃ kv,
        ka.values.find? (fun kp => kp.instance_id == b.instance_id) = some kv
        ∧ kv.instance_id = b.instance_id
        ∧ l = kptLineOf c p b kv)
    ∧ (∀ b kv, kptLineOf c p b kv
        = Line.kpt b.label.id
            (roundPrec ((nth b.origin 0 + nth b.dimension 0 / 2) / nth c.dimension 0) p)
            (roundPrec ((nth b.origin 1 + nth b.dimension 1 / 2) / nth c.dimension 1) p)
            (roundPrec (nth b.dimension 0 / nth c.dimension 0) p)
            (roundPrec (nth b.dimension 1 / nth c.dimension 1) p)
            (kv.keypoints.map (fun k =>
              (roundPrec (nth k.location 0 / nth c.dimension 0) p,
               roundPrec (nth k.location 1 / nth c.dimension 1) p,
               if k.state = 2 then 1 else 0))))
    ∧ (∀ st : ℤ, ((if st = 2 then (1 : ℕ) else 0) = 1 ↔ st = 2)
        ∧ ((if st = 2 then (1 : ℕ) else 0) = 0 ↔ st ≠ 2)) := by
  refine ⟨?_, ?_, fun b kv => rfl, fun st => by by_cases h : st = 2 <;> simp [h]⟩
  · simp only [get_keypoint_lines, hb, hk]
    rw [filterMap_length_eq_filter_length]
    congr 1
    apply List.filter_congr
    intro b _
    cases ka.values.find? (fun kp => kp.instance_id == b.instance_id) <;> rfl
  · intro l hl
    simp only [get_keypoint_lines, hb, hk] at hl
    rcases List.mem_filterMap.mp hl with ⟨b, hbm, hfb⟩
    cases hfind : ka.values.find? (fun kp => kp.instance_id == b.instance_id) with
    | none => rw [hfind] at hfb; exact absurd hfb (by simp)
    | some kv =>
      rw [hfind] at hfb
      refine ⟨b, hbm, kv, hfind, ?_, (Option.some.inj hfb).symm⟩
      have := List.find?_some hfind
      exact eq_of_beq this

/-- Witness for C7, the spec's scenario: `exCapKp` has boxes for
instances 1 and 2 but keypoints only for instance 2, so the keypoint
output has exactly one line while the plain bbox output has two. -/
theorem keypoint_matching_witness :
    (get_keypoint_lines exCapKp 6).length = 1 ∧ (get_bbox_lines exCapKp 6).length = 2 := by
  have h := (keypoint_matching exCapKp 6
    ⟨[⟨1, exLabel, [10, 20], [30, 40]⟩, ⟨2, exLabel, [1, 2], [3, 4]⟩]⟩
    ⟨[⟨2, [⟨[5, 6], 2⟩, ⟨[7, 8], 1⟩]⟩]⟩ rfl rfl).1
  exact ⟨h.trans (by decide), by decide⟩

theorem eligibleEntries_cons (b : DefBlock) (t : List DefBlock) :
    eligibleEntries (b :: t)
      = (match b.spec with
         | some l => if l = [] then [] else l.filterMap entryPick
         | none => []) ++ eligibleEntries t := by
  rcases b with ⟨_ | l⟩
  · simp [eligibleEntries]
  · simp only [eligibleEntries, List.foldr_cons]
    split <;> simp [*]

theorem entries_fold_eq (l : List SpecEntry) : ∀ st : List Label × ℕ,
    l.foldl labelStep st = (l.filterMap entryPick).foldl pairStep st := by
  induction l with
  | nil => intro st; rfl
  | cons e t ih =>
    intro st
    rcases e with ⟨lid, nm⟩
    cases lid <;> cases nm <;>
      simp [List.filterMap_cons, entryPick, labelStep, pairStep, ih, List.foldl_cons]

theorem blocks_fold_eq (defs : List DefBlock) : ∀ st : List Label × ℕ,
    defs.foldl
      (fun st b =>
        match b.spec with
        | some l => if l = [] then st else l.foldl labelStep st
        | none => st) st
      = (eligibleEntries defs).foldl pairStep st := by
  induction defs with
  | nil => intro st; rfl
  | cons b t ih =>
    intro st
    rw [List.foldl_cons, eligibleEntries_cons, List.foldl_append]
    rcases b with ⟨_ | l⟩
    · exact ih st
    · by_cases hl : l = []
      · subst hl; simpa using ih st
      · simp only [if_neg hl]
        rw [entries_fold_eq l st]
        exact ih _

theorem read_labels_eq (defs : List DefBlock) :
    read_labels defs = ((eligibleEntries defs).foldl pairStep ([], 0)).1 := by
  unfold read_labels
  rw [blocks_fold_eq]

theorem mem_specFirstSeen (m : String) : ∀ (ns seen : List String),
    m ∈ specFirstSeen seen ns ↔ m ∈ ns ∧ m ∉ seen := by
  intro ns
  induction ns with
  | nil => intro seen; simp [specFirstSeen]
  | cons n t ih =>
    intro seen
    by_cases hn : n ∈ seen
    · rw [specFirstSeen, if_pos hn, ih seen]
      constructor
      · rintro ⟨h1, h2⟩; exact ⟨List.mem_cons_of_mem _ h1, h2⟩
      · rintro ⟨h1, h2⟩
        rcases List.mem_cons.mp h1 with rfl | h1'
        · exact absurd hn h2
        · exact ⟨h1', h2⟩
    · rw [specFirstSeen, if_neg hn]
      constructor
      · intro hm
        rcases List.mem_cons.mp hm with rfl | hm'
        · exact ⟨List.mem_cons_self _ _, hn⟩
        · rcases (ih (seen ++ [n])).mp hm' with ⟨h1, h2⟩
          exact ⟨List.mem_cons_of_mem _ h1, fun hs => h2 (List.mem_append_left _ hs)⟩
      · rintro ⟨h1, h2⟩
        rcases List.mem_cons.mp h1 with rfl | h1'
        · exact List.mem_cons_self _ _
        · by_cases hmn : m = n
          · subst hmn; exact List.mem_cons_self _ _
          · refine List.mem_cons_of_mem _ ((ih (seen ++ [n])).mpr ⟨h1', ?_⟩)
            intro hs
            rcases List.mem_append.mp hs with h | h
            · exact h2 h
            · rw [List.mem_singleton] at h; exact hmn h

theorem nodup_specFirstSeen : ∀ (ns seen : List String), (specFirstSeen seen ns).Nodup := by
  intro ns
  induction ns with
  | nil => intro seen; simp [specFirstSeen]
  | cons n t ih =>
    intro seen
    by_cases hn : n ∈ seen
    · rw [specFirstSeen, if_pos hn]; exact ih seen
    · rw [specFirstSeen, if_neg hn]
      refine List.nodup_cons.mpr ⟨?_, ih _⟩
      intro hmem
      exact ((mem_specFirstSeen n t (seen ++ [n])).mp hmem).2
        (List.mem_append_right _ (List.mem_singleton.mpr rfl))

theorem pairs_fold_names (ps : List (ℤ × String)) :
    ∀ (labels : List Label) (cnt : ℕ),
      ((ps.foldl pairStep (labels, cnt)).1).map Label.name
        = labels.map Label.name ++ specFirstSeen (labels.map Label.name) (ps.map Prod.snd) := by
  induction ps with
  | nil => intro labels cnt; simp [specFirstSeen]
  | cons p t ih =>
    intro labels cnt
    rw [List.foldl_cons]
    by_cases hp : p.2 ∈ labels.map Label.name
    · have hany : labels.any (fun l => l.name == p.2) = true := by
        rcases List.mem_map.mp hp with ⟨l, hl, hln⟩
        exact List.any_eq_true.mpr ⟨l, hl, by simp [hln]⟩
      rw [show pairStep (labels, cnt) p = (labels, cnt) from by simp [pairStep, hany]]
      rw [ih labels cnt, List.map_cons, specFirstSeen, if_pos hp]
    · have hany : labels.any (fun l => l.name == p.2) = false := by
        cases h : labels.any (fun l => l.name == p.2)
        · rfl
        · rcases List.any_eq_true.mp h with ⟨l, hl, hbeq⟩
          exact absurd (List.mem_map.mpr ⟨l, hl, eq_of_beq hbeq⟩) hp
      rw [show pairStep (labels, cnt) p = (labels ++ [⟨cnt, p.1, p.2⟩], cnt + 1) from by
        simp [pairStep, hany]]
      have ihx := ih (labels ++ [(⟨cnt, p.1, p.2⟩ : Label)]) (cnt + 1)
      rw [ihx, List.map_cons, specFirstSeen, if_neg hp]
      simp [List.map_append]

theorem pairs_fold_ids (ps : List (ℤ × String)) :
    ∀ (labels : List Label) (cnt : ℕ),
      cnt = labels.length →
      labels.map Label.id = List.range labels.length →
      ((ps.foldl pairStep (labels, cnt)).1).map Label.id
        = List.range ((ps.foldl pairStep (labels, cnt)).1).length := by
  induction ps with
  | nil => intro labels cnt _ h2; simpa using h2
  | cons p t ih =>
    intro labels cnt h1 h2
    rw [List.foldl_cons]
    cases hany : labels.any (fun l => l.name == p.2) with
    | true =>
      rw [show pairStep (labels, cnt) p = (labels, cnt) from by simp [pairStep, hany]]
      exact ih labels cnt h1 h2
    | false =>
      rw [show pairStep (labels, cnt) p = (labels ++ [⟨cnt, p.1, p.2⟩], cnt + 1) from by
        simp [pairStep, hany]]
      apply ih
      · simp [h1]
      · rw [List.map_append, h2, List.length_append]
        simp [List.range_succ, h1]

/-- Claim C8: for any definitions input — duplicate names across blocks
included — the registry has exactly one Label per distinct eligible name
(its name list is the spec-side first-seen deduplication of the eligible
name stream, free of duplicates, covering every eligible name), ids are
dense and zero-based in registration order, and blocks lacking a
nonempty `spec` list or entries lacking a key contribute nothing. -/
theorem label_registry_dedup (defs : List DefBlock) :
    (read_labels defs).map Label.name = specFirstSeen [] (eligibleNames defs)
    ∧ ((read_labels defs).map Label.name).Nodup
    ∧ (∀ n, n ∈ (read_labels defs).map Label.name ↔ n ∈ eligibleNames defs)
    ∧ (read_labels defs).map Label.id = List.range (read_labels defs).length := by
  have hn := pairs_fold_names (eligibleEntries defs) [] 0
  have hi := pairs_fold_ids (eligibleEntries defs) [] 0 rfl rfl
  rw [read_labels_eq]
  have hname : ((eligibleEntries defs).foldl pairStep ([], 0)).1.map Label.name
      = specFirstSeen [] (eligibleNames defs) := by
    simpa [eligibleNames] using hn
  refine ⟨hname, ?_, ?_, hi⟩
  · rw [hname]; exact nodup_specFirstSeen _ _
  · intro n
    rw [hname, mem_specFirstSeen]
    simp

/-- Witness for C8 at `exDefs` (duplicate "car", a specless block, an
empty spec, an entry without a name): the registry keeps one label per
distinct name with dense ids 0, 1, 2. -/
theorem label_registry_dedup_witness :
    (read_labels exDefs).map Label.name = specFirstSeen [] (eligibleNames exDefs)
    ∧ read_labels exDefs = [⟨0, 1, "car"⟩, ⟨1, 2, "person"⟩, ⟨2, 5, "tree"⟩] :=
  ⟨(label_registry_dedup exDefs).1, by decide⟩

theorem splitOnChar_ne_nil (c : Char) (l : List Char) : splitOnChar c l ≠ [] := by
  cases l with
  | nil => simp [splitOnChar]
  | cons x xs =>
    cases h : splitOnChar c xs with
    | nil => simp [splitOnChar, h]
    | cons hd tl =>
      simp only [splitOnChar, h]
      split <;> simp

theorem splitOnChar_len2 (c : Char) : ∀ l : List Char, c ∈ l → 2 ≤ (splitOnChar c l).length := by
  intro l
  induction l with
  | nil => intro h; cases h
  | cons x xs ih =>
    intro hmem
    cases h : splitOnChar c xs with
    | nil => exact absurd h (splitOnChar_ne_nil c xs)
    | cons hd tl =>
      by_cases hx : x = c
      · simp [splitOnChar, h, hx]
      · have hmem' : c ∈ xs := by
          rcases List.mem_cons.mp hmem with h1 | h1
          · exact absurd h1.symm hx
          · exact h1
        have h2 := ih hmem'
        rw [h] at h2
        simp only [splitOnChar, h, if_neg hx]
        simp at h2 ⊢
        omega

theorem splitOnChar_not_mem (c : Char) : ∀ l : List Char, c ∉ l → splitOnChar c l = [l] := by
  intro l
  induction l with
  | nil => intro _; rfl
  | cons x xs ih =>
    intro h
    have hx : ¬ x = c := fun he => h (by rw [he]; exact List.mem_cons_self _ _)
    have hxs : c ∉ xs := fun hm => h (List.mem_cons_of_mem _ hm)
    simp [splitOnChar, ih hxs, hx]

theorem getLastD_irrel {α : Type} : ∀ (l : List α) (d1 d2 : α), l ≠ [] → l.getLastD d1 = l.getLastD d2
  | [], _, _, h => absurd rfl h
  | a :: l, d1, d2, _ => by rw [List.getLastD_cons, List.getLastD_cons]

theorem splitOnChar_last_append (c : Char) : ∀ a b : List Char,
    (splitOnChar c (a ++ c :: b)).getLastD [] = (splitOnChar c b).getLastD [] := by
  intro a
  induction a with
  | nil =>
    intro b
    cases h : splitOnChar c b with
    | nil => exact absurd h (splitOnChar_ne_nil c b)
    | cons hd tl =>
      simp [splitOnChar, h]
  | cons x a' ih =>
    intro b
    have hlen := splitOnChar_len2 c (a' ++ c :: b) (by simp)
    cases h : splitOnChar c (a' ++ c :: b) with
    | nil => exact absurd h (splitOnChar_ne_nil c (a' ++ c :: b))
    | cons hd tl =>
      have htl : tl ≠ [] := by
        rw [h] at hlen
        intro he
        subst he
        simp at hlen
      have ihb := ih b
      rw [h, List.getLastD_cons] at ihb
      by_cases hx : x = c
      · have hthis : splitOnChar c ((x :: a') ++ c :: b) = [] :: hd :: tl := by
          simp [splitOnChar, h, hx]
        rw [hthis, List.getLastD_cons, List.getLastD_cons]
        exact ihb
      · have hthis : splitOnChar c ((x :: a') ++ c :: b) = (x :: hd) :: tl := by
          simp [splitOnChar, h, hx]
        rw [hthis, List.getLastD_cons]
        rw [getLastD_irrel tl (x :: hd) hd htl]
        exact ihb

theorem not_space_of_digit {c : Char} (h : c.isDigit = true) : pyIsSpace c = false := by
  cases hpc : pyIsSpace c
  · rfl
  · exfalso
    simp only [pyIsSpace, Bool.or_eq_true, beq_iff_eq] at hpc
    rcases hpc with ((((rfl | rfl) | rfl) | rfl) | rfl) | rfl <;> exact absurd h (by decide)

theorem pyStrip_digits (l : List Char) (h : ∀ c ∈ l, c.isDigit = true) : pyStrip l = l := by
  unfold pyStrip
  have h1 : l.dropWhile pyIsSpace = l := by
    cases l with
    | nil => rfl
    | cons a t => simp [List.dropWhile_cons, not_space_of_digit (h a (List.mem_cons_self _ _))]
  rw [h1]
  have h2 : l.reverse.dropWhile pyIsSpace = l.reverse := by
    cases hr : l.reverse with
    | nil => rfl
    | cons a t =>
      have ha : a ∈ l := by
        rw [← List.mem_reverse, hr]
        exact List.mem_cons_self _ _
      simp [List.dropWhile_cons, not_space_of_digit (h a ha)]
  rw [h2, List.reverse_reverse]

theorem intLitTail_digits : ∀ l : List Char, (∀ c ∈ l, c.isDigit = true) → intLitTail l = true := by
  intro l
  induction l with
  | nil => intro; rfl
  | cons c cs ih =>
    intro h
    have hc := h c (List.mem_cons_self _ _)
    have hne : ¬ c = '_' := fun he => by rw [he] at hc; exact absurd hc (by decide)
    rw [intLitTail.eq_def]
    simp [hne, hc, ih (fun d hd => h d (List.mem_cons_of_mem _ hd))]

theorem intLitOk_digits (l : List Char) (hne : l ≠ []) (h : ∀ c ∈ l, c.isDigit = true) :
    intLitOk l = true := by
  cases l with
  | nil => exact absurd rfl hne
  | cons c cs =>
    simp [intLitOk, h c (List.mem_cons_self _ _),
      intLitTail_digits cs (fun d hd => h d (List.mem_cons_of_mem _ hd))]

theorem fold_digits_eq (l : List Char) (h : ∀ c ∈ l, c.isDigit = true) : ∀ a : ℕ,
    l.foldl (fun a c => if c = '_' then a else 10 * a + (c.toNat - 48)) a
      = l.foldl (fun a c => 10 * a + (c.toNat - 48)) a := by
  induction l with
  | nil => intro a; rfl
  | cons c cs ih =>
    intro a
    have hc := h c (List.mem_cons_self _ _)
    have hne : ¬ c = '_' := fun he => by rw [he] at hc; exact absurd hc (by decide)
    simp only [List.foldl_cons, if_neg hne]
    exact ih (fun d hd => h d (List.mem_cons_of_mem _ hd)) _

theorem pyInt_digits (l : List Char) (hne : l ≠ []) (h : ∀ c ∈ l, c.isDigit = true) :
    pyInt (String.mk l) = Except.ok ((digitsVal l : ℕ) : ℤ) := by
  unfold pyInt
  have hdata : (String.mk l).data = l := rfl
  rw [hdata, pyStrip_digits l h]
  cases l with
  | nil => exact absurd rfl hne
  | cons c cs =>
    have hc := h c (List.mem_cons_self _ _)
    have hplus : c ≠ '+' := fun he => by rw [he] at hc; exact absurd hc (by decide)
    have hminus : c ≠ '-' := fun he => by rw [he] at hc; exact absurd hc (by decide)
    have hcond : ¬ ((c :: cs).head? = some '+' ∨ (c :: cs).head? = some '-') := by
      rintro (he | he)
      · exact hplus (by simpa using he)
      · exact hminus (by simpa using he)
    have hcore : pyIntCore (c :: cs) = c :: cs := by
      unfold pyIntCore
      rw [if_neg hcond]
    have hsign : pyIntSign (c :: cs) = 1 := by
      unfold pyIntSign
      rw [if_neg (fun he => hminus (by simpa using he))]
    rw [hcore, hsign, if_pos (intLitOk_digits (c :: cs) hne h), one_mul]
    simp only [intDigitsVal, digitsVal]
    rw [fold_digits_eq (c :: cs) h 0]

theorem lastSplit_append_digits (a ds : List Char) (h : ∀ c ∈ ds, c.isDigit = true) :
    lastSplit '.' (String.mk (a ++ '.' :: ds)) = String.mk ds := by
  unfold lastSplit
  have hdata : (String.mk (a ++ '.' :: ds)).data = a ++ '.' :: ds := rfl
  rw [hdata, splitOnChar_last_append '.' a ds]
  have hnd : '.' ∉ ds := fun hm => absurd (h '.' hm) (by decide)
  rw [splitOnChar_not_mem '.' ds hnd]
  rfl

theorem seq_parse_ok (a ds : List Char) (hne : ds ≠ []) (h : ∀ c ∈ ds, c.isDigit = true) :
    pyInt (lastSplit '.' (String.mk (a ++ '.' :: ds))) = Except.ok ((digitsVal ds : ℕ) : ℤ) := by
  rw [lastSplit_append_digits a ds h]
  exact pyInt_digits ds hne h

/-- Claim C9: for every raw capture or metric whose `path` names a
containing directory `foo.<N>` with `<N>` a digit string, the parsed
record's `sequence` equals the decimal value of `<N>` (the path is split
on `.` and the final component parsed as an integer); when the final
component fails integer parsing, `from_dict` propagates the format error
instead of producing a record. -/
theorem sequence_derivation (rc : RawCapture) (rm : RawMetric) (a ds : List Char)
    (hne : ds ≠ []) (hds : ∀ c ∈ ds, c.isDigit = true) :
    (rc.path = String.mk (a ++ '.' :: ds) →
      ∃ cap, Capture.from_dict rc = Except.ok cap ∧ cap.sequence = ((digitsVal ds : ℕ) : ℤ))
    ∧ (rm.path = String.mk (a ++ '.' :: ds) →
      ∃ m, Metric.from_dict rm = Except.ok m ∧ m.sequence = ((digitsVal ds : ℕ) : ℤ))
    ∧ (∀ e, pyInt (lastSplit '.' rc.path) = Except.error e →
        Capture.from_dict rc = Except.error e)
    ∧ (∀ e, pyInt (lastSplit '.' rm.path) = Except.error e →
        Metric.from_dict rm = Except.error e) := by
  refine ⟨?_, ?_, ?_, ?_⟩
  · intro hp
    unfold Capture.from_dict
    rw [hp, seq_parse_ok a ds hne hds]
    exact ⟨_, rfl, rfl⟩
  · intro hp
    unfold Metric.from_dict
    rw [hp, seq_parse_ok a ds hne hds]
    exact ⟨_, rfl, rfl⟩
  · intro e he
    unfold Capture.from_dict
    rw [he]
  · intro e he
    unfold Metric.from_dict
    rw [he]

/-- Witness for C9: the packaged raw capture and metric under directory
`sequence.42` parse with sequence 42, and the `sequence.x7` variants
fail with the format error. -/
theorem sequence_derivation_witness :
    (∃ cap, Capture.from_dict exRawCap = Except.ok cap ∧ cap.sequence = 42)
    ∧ (∃ m, Metric.from_dict exRawMet = Except.ok m ∧ m.sequence = 42)
    ∧ Capture.from_dict exRawCapBad = Except.error "invalid literal for int"
    ∧ Metric.from_dict exRawMetBad = Except.error "invalid literal for int" := by
  have hgood := sequence_derivation exRawCap exRawMet ("solo/sequence".data) ("42".data)
    (by decide) (by decide)
  have hbad := sequence_derivation exRawCapBad exRawMetBad ("solo/sequence".data) ("42".data)
    (by decide) (by decide)
  refine ⟨?_, ?_, ?_, ?_⟩
  · obtain ⟨cap, hc, hs⟩ := hgood.1 (by decide)
    exact ⟨cap, hc, hs.trans (by decide)⟩
  · obtain ⟨m, hm, hs⟩ := hgood.2.1 (by decide)
    exact ⟨m, hm, hs.trans (by decide)⟩
  · exact hbad.2.2.1 "invalid literal for int" (by decide)
  · exact hbad.2.2.2 "invalid literal for int" (by decide)

theorem emitCapture_error_class (d : UnityData) (cfg : ConvConfig) (ext : Oracles)
    (path : String) (i : ℕ) (s : String) (c : Capture) (e : ConvError)
    (he : (emitCapture d cfg ext path i s c).2 = some e) : e.lookupClass := by
  unfold emitCapture at he
  cases hm : d.metricsFor c.sequence with
  | none =>
    simp only [hm, Option.some.injEq] at he
    rw [← he]
    trivial
  | some ms =>
    cases hf : ms.find? (fun m => m.id == "Occlusion") with
    | none =>
      simp only [hm, hf, Option.some.injEq] at he
      rw [← he]
      trivial
    | some m =>
      simp [hm, hf] at he

theorem emitCapture_lookup_none (d : UnityData) (cfg : ConvConfig) (ext : Oracles)
    (path : String) (i : ℕ) (s : String) (c : Capture)
    (h : d.metricsFor c.sequence = none) :
    emitCapture d cfg ext path i s c
      = (emitPre cfg ext path i s c, some (ConvError.keyError c.sequence)) := by
  unfold emitCapture
  simp [h]

theorem emitCapture_find_none (d : UnityData) (cfg : ConvConfig) (ext : Oracles)
    (path : String) (i : ℕ) (s : String) (c : Capture) (ms : List Metric)
    (h : d.metricsFor c.sequence = some ms)
    (hf : ms.find? (fun m => m.id == "Occlusion") = none) :
    emitCapture d cfg ext path i s c
      = (emitPre cfg ext path i s c, some ConvError.noneAttrError) := by
  unfold emitCapture
  simp [h, hf]

theorem emitCapture_find_some (d : UnityData) (cfg : ConvConfig) (ext : Oracles)
    (path : String) (i : ℕ) (s : String) (c : Capture) (ms : List Metric) (m : Metric)
    (h : d.metricsFor c.sequence = some ms)
    (hf : ms.find? (fun mm => mm.id == "Occlusion") = some m) :
    emitCapture d cfg ext path i s c
      = (emitPre cfg ext path i s c ++ occEffects cfg path i s m ++ maskEffects cfg path i s c,
          none) := by
  unfold emitCapture
  simp [h, hf]

theorem loopRun_ok_steps (d : UnityData) (cfg : ConvConfig) (ext : Oracles) (path : String)
    (valid : List Capture) : ∀ (ts : List String) (k : ℕ),
    (loopRun d cfg ext path valid k ts).2 = none →
    ∀ m s, ts.get? m = some s → (stepAt d cfg ext path valid (k + m) s).2 = none := by
  intro ts
  induction ts with
  | nil =>
    intro k _ m s hms
    simp at hms
  | cons s0 rest ih =>
    intro k hnone m s hms
    cases hstep : stepAt d cfg ext path valid k s0 with
    | mk es err =>
      cases err with
      | some e => simp [loopRun, hstep] at hnone
      | none =>
        have hrest : (loopRun d cfg ext path valid (k + 1) rest).2 = none := by
          simpa [loopRun, hstep] using hnone
        cases m with
        | zero =>
          have hs : s = s0 := by simpa using hms.symm
          subst hs
          rw [Nat.add_zero, hstep]
        | succ m' =>
          have harith : k + (m' + 1) = k + 1 + m' := by omega
          rw [harith]
          exact ih (k + 1) hrest m' s (by simpa using hms)

theorem loopRun_error_first (d : UnityData) (cfg : ConvConfig) (ext : Oracles) (path : String)
    (valid : List Capture) : ∀ (ts : List String) (k m : ℕ) (s : String) (e : ConvError),
    ts.get? m = some s →
    (∀ j sj, j < m → ts.get? j = some sj → (stepAt d cfg ext path valid (k + j) sj).2 = none) →
    (stepAt d cfg ext path valid (k + m) s).2 = some e →
    (loopRun d cfg ext path valid k ts).2 = some e := by
  intro ts
  induction ts with
  | nil =>
    intro k m s e hms
    simp at hms
  | cons s0 rest ih =>
    intro k m s e hms hpre hstep
    cases m with
    | zero =>
      have hs : s = s0 := by simpa using hms.symm
      subst hs
      rw [Nat.add_zero] at hstep
      cases hst : stepAt d cfg ext path valid k s with
      | mk es err =>
        rw [hst] at hstep
        cases hstep
        simp [loopRun, hst]
    | succ m' =>
      have h0 : (stepAt d cfg ext path valid (k + 0) s0).2 = none :=
        hpre 0 s0 (by omega) (by simp)
      rw [Nat.add_zero] at h0
      cases hst : stepAt d cfg ext path valid k s0 with
      | mk es err =>
        rw [hst] at h0
        cases h0
        have hpre' : ∀ j sj, j < m' → rest.get? j = some sj →
            (stepAt d cfg ext path valid (k + 1 + j) sj).2 = none := by
          intro j sj hj hg
          have harith : k + 1 + j = k + (j + 1) := by omega
          rw [harith]
          exact hpre (j + 1) sj (by omega) (by simpa using hg)
        have hstep' : (stepAt d cfg ext path valid (k + 1 + m') s).2 = some e := by
          have harith : k + 1 + m' = k + (m' + 1) := by omega
          rw [harith]
          exact hstep
        have := ih (k + 1) m' s e (by simpa using hms) hpre' hstep'
        simp [loopRun, hst, this]

theorem loopRun_effects_mem (d : UnityData) (cfg : ConvConfig) (ext : Oracles) (path : String)
    (valid : List Capture) : ∀ (ts : List String) (k m : ℕ) (s : String),
    ts.get? m = some s →
    (∀ j sj, j < m → ts.get? j = some sj → (stepAt d cfg ext path valid (k + j) sj).2 = none) →
    ∀ ef ∈ (stepAt d cfg ext path valid (k + m) s).1,
      ef ∈ (loopRun d cfg ext path valid k ts).1 := by
  intro ts
  induction ts with
  | nil =>
    intro k m s hms
    simp at hms
  | cons s0 rest ih =>
    intro k m s hms hpre ef hef
    cases m with
    | zero =>
      have hs : s = s0 := by simpa using hms.symm
      subst hs
      rw [Nat.add_zero] at hef
      cases hst : stepAt d cfg ext path valid k s with
      | mk es err =>
        rw [hst] at hef
        cases err with
        | some e => simpa [loopRun, hst] using hef
        | none =>
          simp only [loopRun, hst]
          exact List.mem_append_left _ hef
    | succ m' =>
      have h0 : (stepAt d cfg ext path valid (k + 0) s0).2 = none :=
        hpre 0 s0 (by omega) (by simp)
      rw [Nat.add_zero] at h0
      cases hst : stepAt d cfg ext path valid k s0 with
      | mk es err =>
        rw [hst] at h0
        cases h0
        have hpre' : ∀ j sj, j < m' → rest.get? j = some sj →
            (stepAt d cfg ext path valid (k + 1 + j) sj).2 = none := by
          intro j sj hj hg
          have harith : k + 1 + j = k + (j + 1) := by omega
          rw [harith]
          exact hpre (j + 1) sj (by omega) (by simpa using hg)
        have hef' : ef ∈ (stepAt d cfg ext path valid (k + 1 + m') s).1 := by
          have harith : k + 1 + m' = k + (m' + 1) := by omega
          rw [harith]
          exact hef
        have := ih (k + 1) m' s (by simpa using hms) hpre' ef hef'
        simp only [loopRun, hst]
        exact List.mem_append_right _ this

theorem unity_effects_eq (d : UnityData) (out : String) (cfg : ConvConfig) (ext : Oracles)
    (h : (cfg.include_keypoints && cfg.n_keypoints.isNone) = false) :
    (unity_to_yolo d out cfg ext).effects
      = (create_yolo_data_dir out cfg.include_test).1
        ++ [Effect.writeYaml (convYaml out cfg) (yamlItems d cfg (convPath out cfg))]
        ++ (loopRun d cfg ext (convPath out cfg) (validCaptures d cfg) 0
              (convSplit d cfg ext)).1 := by
  simp [unity_to_yolo, h]

theorem unity_result_eq (d : UnityData) (out : String) (cfg : ConvConfig) (ext : Oracles)
    (h : (cfg.include_keypoints && cfg.n_keypoints.isNone) = false) :
    (unity_to_yolo d out cfg ext).result
      = match (loopRun d cfg ext (convPath out cfg) (validCaptures d cfg) 0
            (convSplit d cfg ext)).2 with
        | some e => Except.error e
        | none => Except.ok (convYaml out cfg) := by
  simp [unity_to_yolo, h]

theorem loopRun_error_origin (d : UnityData) (cfg : ConvConfig) (ext : Oracles) (path : String)
    (valid : List Capture) : ∀ (ts : List String) (k : ℕ) (e : ConvError),
    (loopRun d cfg ext path valid k ts).2 = some e →
    ∃ m s, ts.get? m = some s ∧ (stepAt d cfg ext path valid (k + m) s).2 = some e := by
  intro ts
  induction ts with
  | nil =>
    intro k e he
    simp [loopRun] at he
  | cons s0 rest ih =>
    intro k e he
    cases hst : stepAt d cfg ext path valid k s0 with
    | mk es err =>
      cases err with
      | some e0 =>
        have : e0 = e := by simpa [loopRun, hst] using he
        subst this
        exact ⟨0, s0, by simp, by rw [Nat.add_zero, hst]⟩
      | none =>
        have hrest : (loopRun d cfg ext path valid (k + 1) rest).2 = some e := by
          simpa [loopRun, hst] using he
        obtain ⟨m', s, hms, hstep⟩ := ih (k + 1) e hrest
        refine ⟨m' + 1, s, by simpa using hms, ?_⟩
        have harith : k + (m' + 1) = k + 1 + m' := by omega
        rw [harith]
        exact hstep

/-- Claim C2: the "Occlusion" lookup runs for every emitted capture and
its result is dereferenced even when occlusion output is not requested:
whatever the inclusion flags (for a configuration that passes the
`n_keypoints` check and an external split covering every eligible
capture), if any eligible capture's sequence has no metric entry with id
"Occlusion" — or no metrics at all — the conversion aborts with a
lookup (KeyError) or null-dereference (NoneType attribute) failure. -/
theorem unconditional_occlusion_lookup_abort
    (d : UnityData) (out : String) (cfg : ConvConfig) (ext : Oracles) (c : Capture)
    (hwf : (cfg.include_keypoints && cfg.n_keypoints.isNone) = false)
    (hlen : (convSplit d cfg ext).length = (validCaptures d cfg).length)
    (hc : c ∈ validCaptures d cfg)
    (hfail : d.metricsFor c.sequence = none
      ∨ ∃ ms, d.metricsFor c.sequence = some ms
          ∧ ms.find? (fun m => m.id == "Occlusion") = none) :
    ∃ e, (unity_to_yolo d out cfg ext).result = Except.error e ∧ e.lookupClass := by
  have hloop : ∃ e,
      (loopRun d cfg ext (convPath out cfg) (validCaptures d cfg) 0 (convSplit d cfg ext)).2
        = some e := by
    cases hres : (loopRun d cfg ext (convPath out cfg) (validCaptures d cfg) 0
        (convSplit d cfg ext)).2 with
    | some e => exact ⟨e, rfl⟩
    | none =>
      exfalso
      obtain ⟨m, hm⟩ := List.get?_of_mem hc
      have hmlt : m < (validCaptures d cfg).length := (List.get?_eq_some.mp hm).1
      have hmlt' : m < (convSplit d cfg ext).length := by rw [hlen]; exact hmlt
      obtain ⟨s, hs⟩ : ∃ s, (convSplit d cfg ext).get? m = some s :=
        ⟨(convSplit d cfg ext).get ⟨m, hmlt'⟩, List.get?_eq_get hmlt'⟩
      have hstepok := loopRun_ok_steps d cfg ext (convPath out cfg) (validCaptures d cfg)
        (convSplit d cfg ext) 0 hres m s hs
      rw [Nat.zero_add] at hstepok
      unfold stepAt at hstepok
      simp only [hm] at hstepok
      rcases hfail with hf | ⟨ms, hf1, hf2⟩
      · rw [emitCapture_lookup_none d cfg ext (convPath out cfg) m s c hf] at hstepok
        simp at hstepok
      · rw [emitCapture_find_none d cfg ext (convPath out cfg) m s c ms hf1 hf2] at hstepok
        simp at hstepok
  obtain ⟨e, he⟩ := hloop
  have hresult := unity_result_eq d out cfg ext hwf
  rw [he] at hresult
  obtain ⟨m, s, hms, hstep⟩ := loopRun_error_origin d cfg ext (convPath out cfg)
    (validCaptures d cfg) (convSplit d cfg ext) 0 e he
  rw [Nat.zero_add] at hstep
  have hmlt : m < (convSplit d cfg ext).length := (List.get?_eq_some.mp hms).1
  have hmlt2 : m < (validCaptures d cfg).length := by rw [← hlen]; exact hmlt
  obtain ⟨c', hc'⟩ : ∃ c', (validCaptures d cfg).get? m = some c' :=
    ⟨(validCaptures d cfg).get ⟨m, hmlt2⟩, List.get?_eq_get hmlt2⟩
  unfold stepAt at hstep
  simp only [hc'] at hstep
  exact ⟨e, hresult, emitCapture_error_class d cfg ext (convPath out cfg) m s c' e hstep⟩

/-- Witness for C2: with every inclusion flag off, the dataset whose
sequence-0 metrics lack an "Occlusion" entry still aborts with a
lookup-class failure. -/
theorem unconditional_occlusion_lookup_abort_witness :
    ∃ e, (unity_to_yolo exDataNoOccl "out" exCfgNone exOracle).result = Except.error e
      ∧ e.lookupClass := by
  have hvc : validCaptures exDataNoOccl exCfgNone = [exCap] := rfl
  apply unconditional_occlusion_lookup_abort exDataNoOccl "out" exCfgNone exOracle exCap rfl rfl
  · rw [hvc]; exact List.mem_cons_self _ _
  · exact Or.inr ⟨[exMetricOther], rfl, rfl⟩

/-- Claim C1: when occlusion output is requested, every emitted capture
triggers the lookup of the metric entry with id "Occlusion" among its
sequence's metrics; the conversion fails when the sequence has no
metrics (KeyError) or no entry with that id (NoneType dereference), and
when such an entry exists with an occlusion payload carrying a values
list, one `instance_id percent_visible` line per occlusion value is
written to the capture's `{split}/{i}_occlusion.txt`. -/
theorem occlusion_requested_behavior
    (d : UnityData) (out : String) (cfg : ConvConfig) (ext : Oracles)
    (i : ℕ) (s : String) (c : Capture)
    (hocc : cfg.include_occlusion = true)
    (hwf : (cfg.include_keypoints && cfg.n_keypoints.isNone) = false)
    (hs : (convSplit d cfg ext).get? i = some s)
    (hc : (validCaptures d cfg).get? i = some c)
    (hpre : ∀ j sj, j < i → (convSplit d cfg ext).get? j = some sj →
      (stepAt d cfg ext (convPath out cfg) (validCaptures d cfg) j sj).2 = none) :
    (d.metricsFor c.sequence = none →
      (unity_to_yolo d out cfg ext).result = Except.error (ConvError.keyError c.sequence))
    ∧ (∀ ms, d.metricsFor c.sequence = some ms →
        ms.find? (fun m => m.id == "Occlusion") = none →
        (unity_to_yolo d out cfg ext).result = Except.error ConvError.noneAttrError)
    ∧ (∀ ms m om vs, d.metricsFor c.sequence = some ms →
        ms.find? (fun mm => mm.id == "Occlusion") = some m →
        m.occlusion_metric = some om → om.values = some vs →
        Effect.writeLines
            (splitFile (convPath out cfg) s (toString i ++ "_occlusion.txt"))
            (vs.map (fun v => Line.occl v.instance_id v.percent_visible))
          ∈ (unity_to_yolo d out cfg ext).effects) := by
  have hpre0 : ∀ j sj, j < i → (convSplit d cfg ext).get? j = some sj →
      (stepAt d cfg ext (convPath out cfg) (validCaptures d cfg) (0 + j) sj).2 = none := by
    intro j sj hj hg
    rw [Nat.zero_add]
    exact hpre j sj hj hg
  refine ⟨?_, ?_, ?_⟩
  · intro hm
    have hstep : (stepAt d cfg ext (convPath out cfg) (validCaptures d cfg) (0 + i) s).2
        = some (ConvError.keyError c.sequence) := by
      rw [Nat.zero_add]
      unfold stepAt
      simp only [hc]
      rw [emitCapture_lookup_none d cfg ext (convPath out cfg) i s c hm]
    have hl := loopRun_error_first d cfg ext (convPath out cfg) (validCaptures d cfg)
      (convSplit d cfg ext) 0 i s _ hs hpre0 hstep
    have hr := unity_result_eq d out cfg ext hwf
    rw [hl] at hr
    exact hr
  · intro ms hm hf
    have hstep : (stepAt d cfg ext (convPath out cfg) (validCaptures d cfg) (0 + i) s).2
        = some ConvError.noneAttrError := by
      rw [Nat.zero_add]
      unfold stepAt
      simp only [hc]
      rw [emitCapture_find_none d cfg ext (convPath out cfg) i s c ms hm hf]
    have hl := loopRun_error_first d cfg ext (convPath out cfg) (validCaptures d cfg)
      (convSplit d cfg ext) 0 i s _ hs hpre0 hstep
    have hr := unity_result_eq d out cfg ext hwf
    rw [hl] at hr
    exact hr
  · intro ms m om vs hm hf hom hvs
    have hemit := emitCapture_find_some d cfg ext (convPath out cfg) i s c ms m hm hf
    have hoccEq : occEffects cfg (convPath out cfg) i s m
        = [Effect.writeLines (splitFile (convPath out cfg) s (toString i ++ "_occlusion.txt"))
            (vs.map (fun v => Line.occl v.instance_id v.percent_visible))] := by
      simp [occEffects, hocc, hom, hvs]
    have hstepEffects :
        Effect.writeLines (splitFile (convPath out cfg) s (toString i ++ "_occlusion.txt"))
            (vs.map (fun v => Line.occl v.instance_id v.percent_visible))
          ∈ (stepAt d cfg ext (convPath out cfg) (validCaptures d cfg) (0 + i) s).1 := by
      rw [Nat.zero_add]
      unfold stepAt
      simp only [hc]
      rw [hemit]
      refine List.mem_append_left _ (List.mem_append_right _ ?_)
      rw [hoccEq]
      exact List.mem_singleton.mpr rfl
    have hmem := loopRun_effects_mem d cfg ext (convPath out cfg) (validCaptures d cfg)
      (convSplit d cfg ext) 0 i s hs hpre0 _ hstepEffects
    have he := unity_effects_eq d out cfg ext hwf
    rw [he]
    exact List.mem_append_right _ hmem

/-- Witness for C1: converting `exData` (one capture, one "Occlusion"
metric with one value) with only occlusion requested writes the one-line
occlusion file for capture 0 of split train. -/
theorem occlusion_requested_behavior_witness :
    Effect.writeLines
        (splitFile (convPath "out" exCfgOccl) "train" (toString 0 ++ "_occlusion.txt"))
        (([⟨7, 1/2, 1, 1⟩] : List OcclusionValue).map
          (fun v => Line.occl v.instance_id v.percent_visible))
      ∈ (unity_to_yolo exData "out" exCfgOccl exOracle).effects := by
  have h := (occlusion_requested_behavior exData "out" exCfgOccl exOracle 0 "train" exCap
    rfl rfl rfl rfl (fun j sj hj _ => absurd hj (Nat.not_lt_zero j))).2.2
  exact h [exMetricOccl] exMetricOccl
    ⟨"Occlusion", "cam", 0, "", "", some [⟨7, 1/2, 1, 1⟩]⟩ [⟨7, 1/2, 1, 1⟩] rfl rfl rfl rfl

theorem string_ext {a b : String} (h : a.data = b.data) : a = b := by
  cases a; cases b; exact congrArg String.mk h

theorem splitFile_tag_ne (path s : String) (i : ℕ) (x y : String)
    (h : x.data ≠ y.data) :
    splitFile path s (toString i ++ x) ≠ splitFile path s (toString i ++ y) := by
  intro he
  apply h
  have hd := congrArg String.data he
  simp only [splitFile, pathJoin, String.data_append, List.append_assoc] at hd
  have hd1 := List.append_cancel_left hd
  have hd2 := List.append_cancel_left hd1
  have hd3 := List.append_cancel_left hd2
  have hd4 := List.append_cancel_left hd3
  exact List.append_cancel_left hd4

theorem writeIf_not_mem {p q : String} {ls ls' : List Line} (hne : p ≠ q) :
    Effect.writeLines p ls ∉ writeIf q ls' := by
  unfold writeIf
  split
  · intro hm
    rw [List.mem_singleton] at hm
    injection hm with h1 _
    exact hne h1
  · simp

theorem writeIf_nil (q : String) : writeIf q [] = [] := by
  simp [writeIf]

theorem occEffects_shape (cfg : ConvConfig) (path : String) (i : ℕ) (s : String) (m : Metric) :
    occEffects cfg path i s m = []
    ∨ ∃ ls, occEffects cfg path i s m
        = [Effect.writeLines (splitFile path s (toString i ++ "_occlusion.txt")) ls] := by
  unfold occEffects
  by_cases hf : cfg.include_occlusion = true
  · rw [if_pos hf]
    cases hom : m.occlusion_metric with
    | none => simp
    | some om =>
      cases hv : om.values with
      | none => simp [hv]
      | some vs =>
        right
        refine ⟨vs.map (fun v => Line.occl v.instance_id v.percent_visible), ?_⟩
        simp [hv]
  · rw [if_neg hf]
    exact Or.inl rfl

theorem maskEffects_shape (cfg : ConvConfig) (path : String) (i : ℕ) (s : String) (c : Capture) :
    maskEffects cfg path i s c = []
    ∨ ∃ a b, maskEffects cfg path i s c = [Effect.copyFile a b] := by
  unfold maskEffects
  by_cases hf : cfg.include_semantic_mask = true
  · rw [if_pos hf]
    cases hss : c.semantic_segmentation with
    | none => simp
    | some ss =>
      right
      refine ⟨ss.file_path,
        splitFile path s (toString i ++ "_mask." ++ pySplitextExt ss.file_path), ?_⟩
      simp
  · rw [if_neg hf]
    exact Or.inl rfl

theorem emitCapture_effects_sub (d : UnityData) (cfg : ConvConfig) (ext : Oracles)
    (path : String) (i : ℕ) (s : String) (c : Capture) :
    ∀ ef ∈ (emitCapture d cfg ext path i s c).1,
      ef ∈ emitPre cfg ext path i s c
      ∨ (∃ m, ef ∈ occEffects cfg path i s m)
      ∨ ef ∈ maskEffects cfg path i s c := by
  intro ef hef
  unfold emitCapture at hef
  cases hm : d.metricsFor c.sequence with
  | none =>
    simp only [hm] at hef
    exact Or.inl hef
  | some ms =>
    cases hfind : ms.find? (fun mm => mm.id == "Occlusion") with
    | none =>
      simp only [hm, hfind] at hef
      exact Or.inl hef
    | some m =>
      simp only [hm, hfind] at hef
      rcases List.mem_append.mp hef with h1 | h2
      · rcases List.mem_append.mp h1 with ha | hb
        · exact Or.inl ha
        · exact Or.inr (Or.inl ⟨m, hb⟩)
      · exact Or.inr (Or.inr h2)

theorem emitPre_mem (cfg : ConvConfig) (ext : Oracles) (path : String) (i : ℕ) (s : String)
    (c : Capture) (ef : Effect) (h : ef ∈ emitPre cfg ext path i s c) :
    (∃ a b, ef = Effect.copyFile a b)
    ∨ ef ∈ writeIf (splitFile path s (toString i ++ "_bbox.txt")) (bboxLinesIf cfg c)
    ∨ ef ∈ writeIf (splitFile path s (toString i ++ "_keypoints.txt")) (kptLinesIf cfg c)
    ∨ ef ∈ writeIf (splitFile path s (toString i ++ "_segmentation.txt")) (segLinesIf cfg ext c) := by
  unfold emitPre at h
  rcases List.mem_append.mp h with h1 | h4
  · rcases List.mem_append.mp h1 with h2 | h3
    · rcases List.mem_append.mp h2 with ha | hb
      · rw [List.mem_singleton] at ha
        exact Or.inl ⟨_, _, ha⟩
      · exact Or.inr (Or.inl hb)
    · exact Or.inr (Or.inr (Or.inl h3))
  · exact Or.inr (Or.inr (Or.inr h4))

/-- Claim C4, amended: for the bbox, keypoint and segmentation kinds the
per-capture text file is indeed omitted entirely when the capture yields
zero lines; the occlusion file, however, is not — its write is gated
only on the values list being non-`None`, so an "Occlusion" metric whose
values list is present but empty makes the pipeline write an empty
`{i}_occlusion.txt` (the claim's "never written as an empty file" fails
for the occlusion kind; see the counterexample). -/
theorem file_omission_amended (d : UnityData) (cfg : ConvConfig) (ext : Oracles)
    (path : String) (i : ℕ) (s : String) (c : Capture) :
    (bboxLinesIf cfg c = [] → ∀ ls,
      Effect.writeLines (splitFile path s (toString i ++ "_bbox.txt")) ls
        ∉ (emitCapture d cfg ext path i s c).1)
    ∧ (kptLinesIf cfg c = [] → ∀ ls,
      Effect.writeLines (splitFile path s (toString i ++ "_keypoints.txt")) ls
        ∉ (emitCapture d cfg ext path i s c).1)
    ∧ (segLinesIf cfg ext c = [] → ∀ ls,
      Effect.writeLines (splitFile path s (toString i ++ "_segmentation.txt")) ls
        ∉ (emitCapture d cfg ext path i s c).1)
    ∧ (∀ ms m om, cfg.include_occlusion = true →
        d.metricsFor c.sequence = some ms →
        ms.find? (fun mm => mm.id == "Occlusion") = some m →
        m.occlusion_metric = some om → om.values = some [] →
        Effect.writeLines (splitFile path s (toString i ++ "_occlusion.txt")) []
          ∈ (emitCapture d cfg ext path i s c).1) := by
  refine ⟨?_, ?_, ?_, ?_⟩
  · intro h0 ls hmem
    rcases emitCapture_effects_sub d cfg ext path i s c _ hmem with hpre | ⟨m, hocc⟩ | hmask
    · rcases emitPre_mem cfg ext path i s c _ hpre with ⟨a, b, habs⟩ | hb | hk | hg
      · exact Effect.noConfusion habs
      · rw [h0, writeIf_nil] at hb
        simp at hb
      · exact writeIf_not_mem
          (splitFile_tag_ne path s i "_bbox.txt" "_keypoints.txt" (by decide)) hk
      · exact writeIf_not_mem
          (splitFile_tag_ne path s i "_bbox.txt" "_segmentation.txt" (by decide)) hg
    · rcases occEffects_shape cfg path i s m with hsh | ⟨ls', hsh⟩
      · rw [hsh] at hocc
        simp at hocc
      · rw [hsh, List.mem_singleton] at hocc
        injection hocc with h1 _
        exact splitFile_tag_ne path s i "_bbox.txt" "_occlusion.txt" (by decide) h1
    · rcases maskEffects_shape cfg path i s c with hsh | ⟨a, b, hsh⟩
      · rw [hsh] at hmask
        simp at hmask
      · rw [hsh, List.mem_singleton] at hmask
        exact Effect.noConfusion hmask
  · intro h0 ls hmem
    rcases emitCapture_effects_sub d cfg ext path i s c _ hmem with hpre | ⟨m, hocc⟩ | hmask
    · rcases emitPre_mem cfg ext path i s c _ hpre with ⟨a, b, habs⟩ | hb | hk | hg
      · exact Effect.noConfusion habs
      · exact writeIf_not_mem
          (splitFile_tag_ne path s i "_keypoints.txt" "_bbox.txt" (by decide)) hb
      · rw [h0, writeIf_nil] at hk
        simp at hk
      · exact writeIf_not_mem
          (splitFile_tag_ne path s i "_keypoints.txt" "_segmentation.txt" (by decide)) hg
    · rcases occEffects_shape cfg path i s m with hsh | ⟨ls', hsh⟩
      · rw [hsh] at hocc
        simp at hocc
      · rw [hsh, List.mem_singleton] at hocc
        injection hocc with h1 _
        exact splitFile_tag_ne path s i "_keypoints.txt" "_occlusion.txt" (by decide) h1
    · rcases maskEffects_shape cfg path i s c with hsh | ⟨a, b, hsh⟩
      · rw [hsh] at hmask
        simp at hmask
      · rw [hsh, List.mem_singleton] at hmask
        exact Effect.noConfusion hmask
  · intro h0 ls hmem
    rcases emitCapture_effects_sub d cfg ext path i s c _ hmem with hpre | ⟨m, hocc⟩ | hmask
    · rcases emitPre_mem cfg ext path i s c _ hpre with ⟨a, b, habs⟩ | hb | hk | hg
      · exact Effect.noConfusion habs
      · exact writeIf_not_mem
          (splitFile_tag_ne path s i "_segmentation.txt" "_bbox.txt" (by decide)) hb
      · exact writeIf_not_mem
          (splitFile_tag_ne path s i "_segmentation.txt" "_keypoints.txt" (by decide)) hk
      · rw [h0, writeIf_nil] at hg
        simp at hg
    · rcases occEffects_shape cfg path i s m with hsh | ⟨ls', hsh⟩
      · rw [hsh] at hocc
        simp at hocc
      · rw [hsh, List.mem_singleton] at hocc
        injection hocc with h1 _
        exact splitFile_tag_ne path s i "_segmentation.txt" "_occlusion.txt" (by decide) h1
    · rcases maskEffects_shape cfg path i s c with hsh | ⟨a, b, hsh⟩
      · rw [hsh] at hmask
        simp at hmask
      · rw [hsh, List.mem_singleton] at hmask
        exact Effect.noConfusion hmask
  · intro ms m om hocc hm hfind hom hvs
    have hemit := emitCapture_find_some d cfg ext path i s c ms m hm hfind
    have hoccEq : occEffects cfg path i s m
        = [Effect.writeLines (splitFile path s (toString i ++ "_occlusion.txt")) []] := by
      simp [occEffects, hocc, hom, hvs]
    rw [hemit]
    refine List.mem_append_left _ (List.mem_append_right _ ?_)
    rw [hoccEq]
    exact List.mem_singleton.mpr rfl

/-- Counterexample to claim C4 as stated: the "Occlusion" metric of
`exDataEmpty` carries an empty values list, so capture 0 yields zero
occlusion lines, yet the pipeline's per-capture emission writes an
`{i}_occlusion.txt` file with zero lines — an empty file — instead of
omitting it. -/
theorem file_omission_counterexample :
    (∃ om, exMetricEmpty.occlusion_metric = some om ∧ om.values = some [])
    ∧ Effect.writeLines (splitFile "out" "train" (toString 0 ++ "_occlusion.txt")) []
        ∈ (emitCapture exDataEmpty exCfgOccl exOracle "out" 0 "train" exCap).1 :=
  ⟨⟨_, rfl, rfl⟩, by decide⟩

/-- Witness for the amended C4: under the occlusion-only configuration,
capture 0 of `exDataEmpty` gets no bbox file (zero bbox lines) but does
get the empty occlusion file. -/
theorem file_omission_amended_witness :
    Effect.writeLines (splitFile "out" "train" (toString 0 ++ "_bbox.txt")) []
      ∉ (emitCapture exDataEmpty exCfgOccl exOracle "out" 0 "train" exCap).1
    ∧ Effect.writeLines (splitFile "out" "train" (toString 0 ++ "_occlusion.txt")) []
      ∈ (emitCapture exDataEmpty exCfgOccl exOracle "out" 0 "train" exCap).1 := by
  have h := file_omission_amended exDataEmpty exCfgOccl exOracle "out" 0 "train" exCap
  exact ⟨h.1 rfl [], h.2.2.2 [exMetricEmpty] exMetricEmpty
    ⟨"Occlusion", "cam", 0, "", "", some []⟩ rfl rfl rfl rfl rfl⟩

/-- Counterexample to claim C5 as stated: for capture 0 (split train)
of `exData` with the semantic mask requested, `os.path.splitext` keeps
the leading dot of the suffix (".png"), and the loop body's only mask
copy targets `0_mask..png` — a double dot — rather than
`{i}_mask.{ext} = 0_mask.png` with `ext` the bare extension. -/
theorem mask_copy_counterexample :
    pySplitextExt "solo/sequence.0/step0.camera.semantic.png" = ".png"
    ∧ (emitCapture exData exCfgMask exOracle "out" 0 "train" exCap).1
      = [Effect.copyFile "solo/sequence.0/step0.camera.png" (splitFile "out" "train" "0.png"),
         Effect.copyFile "solo/sequence.0/step0.camera.semantic.png"
           (splitFile "out" "train" "0_mask..png")]
    ∧ splitFile "out" "train" "0_mask..png" ≠ splitFile "out" "train" "0_mask.png" :=
  ⟨by decide, by decide, by decide⟩

/-- Claim C5, amended: when semantic_mask output is requested, for every
emitted capture with positional index `i` assigned to split `s` (reached
with all earlier loop steps succeeding and its own metrics lookup
succeeding), the semantic mask file is copied to
`{s}/{i}_mask.{sfx}` where `sfx` is `os.path.splitext`'s suffix of the
original mask path including its leading dot — so the emitted file name
carries a double dot (e.g. `0_mask..png`), not the bare original
extension. -/
theorem mask_copy_amended
    (d : UnityData) (out : String) (cfg : ConvConfig) (ext : Oracles)
    (i : ℕ) (s : String) (c : Capture) (ss : SemanticSegRec)
    (hmask : cfg.include_semantic_mask = true)
    (hwf : (cfg.include_keypoints && cfg.n_keypoints.isNone) = false)
    (hs : (convSplit d cfg ext).get? i = some s)
    (hc : (validCaptures d cfg).get? i = some c)
    (hss : c.semantic_segmentation = some ss)
    (hpre : ∀ j sj, j < i → (convSplit d cfg ext).get? j = some sj →
      (stepAt d cfg ext (convPath out cfg) (validCaptures d cfg) j sj).2 = none)
    (hok : (stepAt d cfg ext (convPath out cfg) (validCaptures d cfg) i s).2 = none) :
    Effect.copyFile ss.file_path
        (splitFile (convPath out cfg) s (toString i ++ "_mask." ++ pySplitextExt ss.file_path))
      ∈ (unity_to_yolo d out cfg ext).effects := by
  have hpre0 : ∀ j sj, j < i → (convSplit d cfg ext).get? j = some sj →
      (stepAt d cfg ext (convPath out cfg) (validCaptures d cfg) (0 + j) sj).2 = none := by
    intro j sj hj hg
    rw [Nat.zero_add]
    exact hpre j sj hj hg
  have hmaskEq : maskEffects cfg (convPath out cfg) i s c
      = [Effect.copyFile ss.file_path
          (splitFile (convPath out cfg) s
            (toString i ++ "_mask." ++ pySplitextExt ss.file_path))] := by
    simp [maskEffects, hmask, hss]
  have hmem_step :
      Effect.copyFile ss.file_path
          (splitFile (convPath out cfg) s
            (toString i ++ "_mask." ++ pySplitextExt ss.file_path))
        ∈ (stepAt d cfg ext (convPath out cfg) (validCaptures d cfg) (0 + i) s).1 := by
    rw [Nat.zero_add]
    unfold stepAt at hok ⊢
    simp only [hc] at hok ⊢
    cases hm : d.metricsFor c.sequence with
    | none =>
      rw [emitCapture_lookup_none d cfg ext (convPath out cfg) i s c hm] at hok
      simp at hok
    | some ms =>
      cases hfind : ms.find? (fun mm => mm.id == "Occlusion") with
      | none =>
        rw [emitCapture_find_none d cfg ext (convPath out cfg) i s c ms hm hfind] at hok
        simp at hok
      | some m =>
        rw [emitCapture_find_some d cfg ext (convPath out cfg) i s c ms m hm hfind]
        refine List.mem_append_right _ ?_
        rw [hmaskEq]
        exact List.mem_singleton.mpr rfl
  have hmem := loopRun_effects_mem d cfg ext (convPath out cfg) (validCaptures d cfg)
    (convSplit d cfg ext) 0 i s hs hpre0 _ hmem_step
  have he := unity_effects_eq d out cfg ext hwf
  rw [he]
  exact List.mem_append_right _ hmem

/-- Witness for the amended C5: the concrete run over `exData` with the
mask requested copies the mask of capture 0 to the double-dot name. -/
theorem mask_copy_amended_witness :
    Effect.copyFile "solo/sequence.0/step0.camera.semantic.png"
        (splitFile (convPath "out" exCfgMask) "train"
          (toString 0 ++ "_mask."
            ++ pySplitextExt "solo/sequence.0/step0.camera.semantic.png"))
      ∈ (unity_to_yolo exData "out" exCfgMask exOracle).effects := by
  have h := mask_copy_amended exData "out" exCfgMask exOracle 0 "train" exCap
    ⟨"solo/sequence.0/step0.camera.semantic.png"⟩ rfl rfl rfl rfl rfl
    (fun j sj hj _ => absurd hj (Nat.not_lt_zero j)) (by decide)
  exact h
